import Mathlib

/-!
Verification of the mixed-container loop-unrolling subsystem of the
`numba` untyped-pass pipeline (`numba/untyped_passes.py`) and of the
error classification of the linear-algebra adapter
(`numba/targets/linalg.py`).

The block/statement IR, the pass entry points
(`MixedContainerUnroller.apply_transform`, `MixedContainerUnroller.run_pass`,
`IterLoopCanonicalization.assess_loop`, `IterLoopCanonicalization.transform`,
`IterLoopCanonicalization.run_pass`) and their helpers
(`analyse_tuple`, `add_offset_to_labels_w_ignore`, `inject_loop_body`,
`gen_switch`, `unroll_loop`, `_inv_err_handler`) are embedded from the
source.  Utilities the source imports from modules that are not part of
the analysed file set (`compute_cfg_from_blocks`, `CFG.loops`,
`simplify_CFG`, `mk_unique_var`, `build_definitions`, `get_definition`,
`replace_var_names`, `get_name_var_table`, `compute_use_defs`, the
liveness map, `inline_closure_call`, `PostProcessor`) are modelled from
the specification; each such definition carries a doc comment starting
with `Modelled from the spec:`.

Python-level conventions of the embedding:
* a Python dict is an insertion-ordered association list; `dict.popitem`
  removes the last inserted item;
* a Python set of block labels is iterated in ascending label order;
* `ir.Var` equality is by variable name;
* source locations (`loc`) carry no information used by any claim and are
  dropped;
* a raised exception is `Except.error`, carrying the error value and the
  state at the raise point (the caller observes the same mutable state).
-/

/-- Variable names.  `mk_unique_var` outputs are represented structurally as
a base name paired with the value of the global fresh-name counter, mirroring
`base + "." + str(counter)` without string parsing. -/
inductive VName where
  | str (s : String)
  | uniq (base : VName) (k : Nat)
deriving DecidableEq, Repr

/-- Identity of a Python global value, used for identity tests such as
`range_global.value is not range` and `call_func is literal_unroll`. -/
inductive GVal where
  | grange
  | glen
  | gliteral_unroll
  | gget_range
  | gother (s : String)
deriving DecidableEq, Repr

/-- Element (slot) types of a container, at the granularity the unroller
consults them: literal types (whose `literal_value` can be written straight
into an unrolled branch) and everything else. -/
inductive ETy where
  | int64
  | float64
  | complex128
  | literalInt (v : Int)
  | literalStr (s : String)
  | eOther (s : String)
deriving DecidableEq, Repr

/-- Numba types: the accepted fixed-length containers (`types.Tuple`,
`types.UniTuple`), element types, `types.void` (the placeholder dtype of a
freshly created `typed_getitem`) and everything else. -/
inductive Ty where
  | elem (e : ETy)
  | void
  | tupleTy (elts : List ETy)
  | uniTuple (dtype : ETy) (count : Nat)
  | otherTy (s : String)
deriving DecidableEq, Repr

/-- Enumerating a container type yields its per-slot element types:
member types for `types.Tuple`, the dtype repeated `count` times for
`types.UniTuple`. -/
def Ty.tupleElems : Ty → List Ty
  | .tupleTy elts => elts.map Ty.elem
  | .uniTuple dtype count => (List.replicate count dtype).map Ty.elem
  | _ => []

/-- Test for `MixedContainerUnroller._accepted_types = (types.Tuple, types.UniTuple)`. -/
def Ty.isAcceptedContainer : Ty → Bool
  | .tupleTy _ => true
  | .uniTuple _ _ => true
  | _ => false

/-- Test for `isinstance(branch_ty, types.Literal)`. -/
def Ty.isLiteral : Ty → Bool
  | .elem (.literalInt _) => true
  | .elem (.literalStr _) => true
  | _ => false

/-- Constant values carried by `ir.Const`. -/
inductive ConstVal where
  | int (v : Int)
  | str (s : String)
  | pynone
deriving DecidableEq, Repr

/-- The `literal_value` of a literal type, as written by the constant
branch rewrite in `inject_loop_body`. -/
def Ty.literalValue : Ty → ConstVal
  | .elem (.literalInt v) => .int v
  | .elem (.literalStr s) => .str s
  | _ => .pynone

/-- Expressions (`ir.Expr`), restricted to the ops the analysed passes
inspect or build.  `inSet` is the membership test of a generated switch
branch (`PLACEHOLDER_INDEX in (<integers>,)`). -/
inductive Expr where
  | call (func : VName) (args : List VName)
  | getiter (value : VName)
  | iternext (value : VName)
  | pair_first (value : VName)
  | pair_second (value : VName)
  | getitem (value : VName) (index : VName)
  | typed_getitem (value : VName) (dtype : Ty) (index : VName)
  | inSet (value : VName) (elems : List Nat)
deriving DecidableEq, Repr

/-- The `op` string of an expression, as matched by `find_exprs` and the
`stmt.value.op == ...` checks. -/
def Expr.op : Expr → String
  | .call _ _ => "call"
  | .getiter _ => "getiter"
  | .iternext _ => "iternext"
  | .pair_first _ => "pair_first"
  | .pair_second _ => "pair_second"
  | .getitem _ _ => "getitem"
  | .typed_getitem _ _ _ => "typed_getitem"
  | .inSet _ _ => "in_set"

/-- The `value` attribute of an expression, for the ops that have one;
`none` models an `AttributeError`. -/
def Expr.valueAttr : Expr → Option VName
  | .call _ _ => none
  | .getiter v => some v
  | .iternext v => some v
  | .pair_first v => some v
  | .pair_second v => some v
  | .getitem v _ => some v
  | .typed_getitem v _ _ => some v
  | .inSet v _ => some v

/-- The `args` attribute (`getattr(dfn, "args", False)`): present only on
calls. -/
def Expr.argsAttr : Expr → Option (List VName)
  | .call _ args => some args
  | _ => none

/-- Right-hand sides of an assignment: an `ir.Expr`, an `ir.Global`, an
`ir.Const` or a plain variable copy. -/
inductive RVal where
  | expr (e : Expr)
  | global (name : String) (value : GVal)
  | const (v : ConstVal)
  | var (v : VName)
deriving DecidableEq, Repr

/-- Statements: `ir.Assign`, `ir.Jump`, `ir.Branch`, `ir.Return` and
`ir.Raise` (the defensive branch of a generated switch). -/
inductive Stmt where
  | assign (value : RVal) (target : VName)
  | jump (target : Nat)
  | branch (cond : VName) (truebr falsebr : Nat)
  | ret (value : VName)
  | raiseStmt
deriving DecidableEq, Repr

/-- A basic block: an ordered list of statements. -/
structure Block where
  body : List Stmt
deriving DecidableEq, Repr

/-- The block map of a function IR: an insertion-ordered association list
from integer label to block (a Python dict). -/
abbrev Blocks := List (Nat × Block)

/-- Dict lookup. -/
def alGet {α β : Type} [DecidableEq α] : List (α × β) → α → Option β
  | [], _ => none
  | (a, b) :: t, k => if a = k then some b else alGet t k

/-- Dict store: update in place if the key exists, append otherwise
(Python dict insertion-order semantics). -/
def alSet {α β : Type} [DecidableEq α] : List (α × β) → α → β → List (α × β)
  | [], k, v => [(k, v)]
  | (a, b) :: t, k, v => if a = k then (k, v) :: t else (a, b) :: alSet t k v

/-- Dict deletion (`dict.pop`). -/
def alPop {α β : Type} [DecidableEq α] : List (α × β) → α → List (α × β)
  | [], _ => []
  | (a, b) :: t, k => if a = k then t else (a, b) :: alPop t k

/-- Dict key list. -/
def alKeys {α β : Type} : List (α × β) → List α := List.map Prod.fst

/-- Membership test for dict keys. -/
def alHas {α β : Type} [DecidableEq α] (m : List (α × β)) (k : α) : Bool :=
  (alGet m k).isSome

/-!  ## The linear-algebra adapter (`numba/targets/linalg.py`)  -/

/-- Outcome of a call into `_inv_err_handler`: normal return, a raised
`LinAlgError` carrying a message, or a call of the process-fatal
`numba_fatal_error` routine (the `assert 0` after it is unreachable). -/
inductive InvOutcome where
  | ok
  | linAlgError (msg : String)
  | fatal
deriving DecidableEq, Repr

/-- Embedding of `_inv_err_handler(r)`: the return-code classifier guarding
`np.linalg.inv`. -/
def _inv_err_handler (r : Int) : InvOutcome :=
  if r ≠ 0 then
    if r < 0 then
      InvOutcome.fatal
    else if r > 0 then
      InvOutcome.linAlgError "Matrix is singular and cannot be inverted."
    else
      InvOutcome.ok
  else
    InvOutcome.ok

/-!  ## `MixedContainerUnroller.analyse_tuple` and the switch table  -/

/-- One step of `defaultdict(list)` accumulation: append index `i` to the
list of type `ty`, creating the (insertion-ordered) entry if absent. -/
def dAppend : List (Ty × List Nat) → Ty → Nat → List (Ty × List Nat)
  | [], ty, i => [(ty, [i])]
  | (t, l) :: rest, ty, i =>
      if t = ty then (t, l ++ [i]) :: rest else (t, l) :: dAppend rest ty i

/-- Embedding of `MixedContainerUnroller.analyse_tuple`: a map of
type to list of indexes for a typed tuple, built with
`for i, ty in enumerate(tup): d[ty].append(i)`. -/
def analyse_tuple (tup : List Ty) : List (Ty × List Nat) :=
  (tup.enum).foldl (fun d p => dAppend d p.2 p.1) []

/-!  ## Variables, substitution and generic list-set helpers  -/

/-- Variables read by an expression. -/
def Expr.usedVars : Expr → List VName
  | .call f args => f :: args
  | .getiter v => [v]
  | .iternext v => [v]
  | .pair_first v => [v]
  | .pair_second v => [v]
  | .getitem v i => [v, i]
  | .typed_getitem v _ i => [v, i]
  | .inSet v _ => [v]

/-- Variables read by a right-hand side. -/
def RVal.usedVars : RVal → List VName
  | .expr e => e.usedVars
  | .var v => [v]
  | _ => []

/-- Variables read by a statement. -/
def Stmt.usedVars : Stmt → List VName
  | .assign v _ => v.usedVars
  | .branch c _ _ => [c]
  | .ret v => [v]
  | _ => []

/-- Variables defined by a statement. -/
def Stmt.defVars : Stmt → List VName
  | .assign _ t => [t]
  | _ => []

/-- All variables named by a statement. -/
def Stmt.allVars (s : Stmt) : List VName :=
  s.usedVars ++ s.defVars

/-- Deduplication keeping first occurrences, accumulating already-seen
elements (the iteration order of a Python dict built by repeated insertion). -/
def dedupFirstAux {α : Type} [DecidableEq α] (seen : List α) : List α → List α
  | [] => []
  | x :: t => if x ∈ seen then dedupFirstAux seen t
              else x :: dedupFirstAux (x :: seen) t

/-- Deduplication keeping first occurrences. -/
def dedupFirst {α : Type} [DecidableEq α] (l : List α) : List α :=
  dedupFirstAux [] l

/-- Apply a rename dict to one variable (identity when absent). -/
def substV (σ : List (VName × VName)) (v : VName) : VName :=
  (alGet σ v).getD v

/-- Apply a rename dict to an expression. -/
def Expr.subst (σ : List (VName × VName)) : Expr → Expr
  | .call f args => .call (substV σ f) (args.map (substV σ))
  | .getiter v => .getiter (substV σ v)
  | .iternext v => .iternext (substV σ v)
  | .pair_first v => .pair_first (substV σ v)
  | .pair_second v => .pair_second (substV σ v)
  | .getitem v i => .getitem (substV σ v) (substV σ i)
  | .typed_getitem v d i => .typed_getitem (substV σ v) d (substV σ i)
  | .inSet v es => .inSet (substV σ v) es

/-- Apply a rename dict to a right-hand side. -/
def RVal.subst (σ : List (VName × VName)) : RVal → RVal
  | .expr e => .expr (e.subst σ)
  | .var v => .var (substV σ v)
  | r => r

/-- Apply a rename dict to a statement (uses and definition targets). -/
def Stmt.subst (σ : List (VName × VName)) : Stmt → Stmt
  | .assign v t => .assign (v.subst σ) (substV σ t)
  | .branch c t f => .branch (substV σ c) t f
  | .ret v => .ret (substV σ v)
  | s => s

/-- Modelled from the spec: `replace_var_names` renames every variable
occurrence of a block map according to a name dict. -/
def replace_var_names (blocks : Blocks) (σ : List (VName × VName)) : Blocks :=
  blocks.map fun p => (p.1, Block.mk (p.2.body.map (Stmt.subst σ)))

/-- Modelled from the spec: `get_name_var_table` collects every variable
named anywhere in a block map (first-occurrence order, deduplicated). -/
def get_name_var_table (blocks : Blocks) : List VName :=
  dedupFirst ((blocks.map (fun p => p.2.body.foldr (fun s acc => s.allVars ++ acc) [])).foldr (· ++ ·) [])

/-- Modelled from the spec: `mk_unique_var` draws a fresh name from a global
monotone counter; the result is the base name tagged with the counter value. -/
def mk_unique_var (name : VName) (ctr : Nat) : VName × Nat :=
  (.uniq name ctr, ctr + 1)

/-- Bound on the fresh-name counters already embedded in a name: `true` when
every counter tag inside the name is below `c`.  Names produced by
`mk_unique_var` at counter values `≥ c` therefore differ from every name
satisfying this bound. -/
def VName.uniqLt (c : Nat) : VName → Bool
  | .str _ => true
  | .uniq b k => k < c && b.uniqLt c

/-!  ## The definitions table and `get_definition`  -/

/-- Modelled from the spec: `build_definitions` collects, per variable name,
the list of right-hand sides assigned to it anywhere in the block map. -/
def build_definitions (blocks : Blocks) : List (VName × List RVal) :=
  blocks.foldl
    (fun d p => p.2.body.foldl
      (fun d s => match s with
        | .assign v t =>
            match alGet d t with
            | some l => alSet d t (l ++ [v])
            | none => alSet d t [v]
        | _ => d) d) []

/-- Modelled from the spec: `get_definition` chases variable copies through
the definitions table until a non-variable right-hand side is reached; a
non-variable input is returned unchanged; `none` models the exception raised
on a missing or ambiguous definition (and fuel exhaustion on a cycle). -/
def getDefChase (defs : List (VName × List RVal)) : Nat → RVal → Option RVal
  | fuel + 1, .var v =>
      (match alGet defs v with
       | some [d] => getDefChase defs fuel d
       | _ => none)
  | 0, .var _ => none
  | _, r => some r

/-- The function IR handed between passes: the block map, the cached
definitions table and the cached block-level liveness map
(`func_ir.variable_lifetime.livemap`). -/
structure FuncIR where
  blocks : Blocks
  defs : List (VName × List RVal)
  livemap : List (Nat × List VName)
deriving DecidableEq, Repr

/-- `func_ir.get_definition`, with fuel large enough to traverse the whole
definitions table once. -/
def FuncIR.get_definition (fir : FuncIR) (r : RVal) : Option RVal :=
  getDefChase fir.defs (fir.defs.length + 1) r

/-- `block.find_exprs(op)`: the expressions of the given op assigned in the
block, in statement order. -/
def Block.find_exprs (b : Block) (opName : String) : List Expr :=
  b.body.filterMap fun s =>
    match s with
    | .assign (.expr e) _ => if e.op = opName then some e else none
    | _ => none

/-!  ## CFG, natural loops, use/def, liveness, CFG simplification
 (all modelled from the spec: these utilities live in `analysis.py`,
 `ir_utils.py` and `postproc.py`, outside the analysed file set)  -/

/-- Successor labels of a block (targets of its terminator). -/
def successorsOf (blocks : Blocks) (l : Nat) : List Nat :=
  match alGet blocks l with
  | some b =>
      (match b.body.getLast? with
       | some (.jump t) => [t]
       | some (.branch _ t f) => if t = f then [t] else [t, f]
       | _ => [])
  | none => []

/-- Predecessor labels of a block. -/
def predecessorsOf (blocks : Blocks) (l : Nat) : List Nat :=
  (alKeys blocks).filter fun p => l ∈ successorsOf blocks p

/-- The entry label of a block map (`min(blocks.keys())`). -/
def entryLabel (blocks : Blocks) : Nat :=
  (alKeys blocks).foldr min ((alKeys blocks).headD 0)

/-- Insert into a sorted list (ascending). -/
def insertSorted (x : Nat) : List Nat → List Nat
  | [] => [x]
  | y :: t => if x ≤ y then x :: y :: t else y :: insertSorted x t

/-- Ascending insertion sort (the iteration order of a Python set of small
integer labels). -/
def sortNat (l : List Nat) : List Nat := l.foldr insertSorted []

/-- Iterate a function a fixed number of times. -/
def iterN {α : Type} (f : α → α) : Nat → α → α
  | 0, a => a
  | n + 1, a => iterN f n (f a)

/-- One widening round of forward reachability. -/
def reachStep (blocks : Blocks) (acc : List Nat) : List Nat :=
  dedupFirst (acc ++ (acc.map (successorsOf blocks)).foldr (· ++ ·) [])

/-- The labels reachable from `start` (every reachable label is reached
along a repetition-free path, so `blocks.length` rounds close the set). -/
def reachableFrom (blocks : Blocks) (start : Nat) : List Nat :=
  iterN (reachStep blocks) blocks.length [start]

/-- Modelled from the spec: `l` dominates `u` when every path from the CFG
entry to `u` passes through `l`; equivalently, removing the block of `l`
makes `u` unreachable (and every label dominates itself). -/
def dominatesB (blocks : Blocks) (l u : Nat) : Bool :=
  l = u || u ∉ reachableFrom (alPop blocks l) (entryLabel blocks)

/-- Back edges of the CFG: edges `u → h` with `h` dominating `u`. -/
def backEdges (blocks : Blocks) : List (Nat × Nat) :=
  (alKeys blocks).foldr
    (fun u acc =>
      ((successorsOf blocks u).filter (fun h => dominatesB blocks h u)).map (fun h => (u, h)) ++ acc)
    []

/-- One widening round of the natural-loop body: add predecessors of every
member other than the header. -/
def loopBodyStep (blocks : Blocks) (h : Nat) (acc : List Nat) : List Nat :=
  dedupFirst (acc ++ ((acc.filter (· ≠ h)).map (predecessorsOf blocks)).foldr (· ++ ·) [])

/-- The body of the natural loop with header `h` and back-edge sources
`srcs`: the backward closure of the sources up to the header. -/
def natLoopBody (blocks : Blocks) (h : Nat) (srcs : List Nat) : List Nat :=
  iterN (loopBodyStep blocks h) blocks.length (dedupFirst (h :: srcs))

/-- A natural loop as produced by `CFG.loops()`: header label, entry labels
(predecessors outside the loop), body labels (including the header) and exit
labels (successors outside the loop). -/
structure Loop where
  header : Nat
  entries : List Nat
  body : List Nat
  exits : List Nat
deriving DecidableEq, Repr

/-- Modelled from the spec: the natural-loop set of the CFG keyed by header
label, each loop with header, entries, body and exits; loops sharing a
header are merged; results are in ascending header order and all label sets
are in ascending order. -/
def loopsOf (blocks : Blocks) : List (Nat × Loop) :=
  let bes := backEdges blocks
  let headers := (dedupFirst (bes.map Prod.snd)) |> sortNat
  headers.map fun h =>
    let srcs := (bes.filter (fun e => e.2 = h)).map Prod.fst
    let body := (natLoopBody blocks h srcs) |> sortNat
    let entries :=
      ((dedupFirst ((body.map (predecessorsOf blocks)).foldr (· ++ ·) [])).filter (· ∉ body)) |> sortNat
    let exits :=
      ((dedupFirst ((body.map (successorsOf blocks)).foldr (· ++ ·) [])).filter (· ∉ body)) |> sortNat
    (h, Loop.mk h entries body exits)

/-- Use/def sets per block label, as produced by `compute_use_defs`. -/
structure UseDefs where
  usemap : List (Nat × List VName)
  defmap : List (Nat × List VName)
deriving DecidableEq, Repr

/-- Modelled from the spec: per-label use/def sets of a block map. -/
def compute_use_defs (blocks : Blocks) : UseDefs :=
  { usemap := blocks.map fun p =>
      (p.1, dedupFirst (p.2.body.foldr (fun s acc => s.usedVars ++ acc) []))
    defmap := blocks.map fun p =>
      (p.1, dedupFirst (p.2.body.foldr (fun s acc => s.defVars ++ acc) [])) }

/-- One backward round of block-level liveness:
`liveIn(l) = use(l) ∪ (⋃ liveIn(succ) - def(l))`. -/
def liveStep (blocks : Blocks) (live : List (Nat × List VName)) : List (Nat × List VName) :=
  let ud := compute_use_defs blocks
  blocks.map fun p =>
    let l := p.1
    let succLive := ((successorsOf blocks l).map fun s => (alGet live s).getD []).foldr (· ++ ·) []
    let d := (alGet ud.defmap l).getD []
    (l, dedupFirst ((alGet ud.usemap l).getD [] ++ succLive.filter (· ∉ d)))

/-- Modelled from the spec: the block-level live-variable map (variables live
at block entry), by bounded fixpoint iteration (every live fact propagates
backwards along a repetition-free block path, so `blocks.length + 1` rounds
reach the fixpoint). -/
def computeLiveMap (blocks : Blocks) : List (Nat × List VName) :=
  iterN (liveStep blocks) (blocks.length + 1) (blocks.map fun p => (p.1, []))

/-- Redirect every jump/branch target equal to `frm` to `to`. -/
def redirectLabel (src dst : Nat) (blocks : Blocks) : Blocks :=
  blocks.map fun p =>
    (p.1, Block.mk (p.2.body.map fun s =>
      match s with
      | .jump t => .jump (if t = src then dst else t)
      | .branch c tb fb => .branch c (if tb = src then dst else tb) (if fb = src then dst else fb)
      | s => s))

/-- Find the first trivially-redundant block: not the entry, body exactly one
unconditional jump elsewhere. -/
def findTrivialJump (blocks : Blocks) : Option (Nat × Nat) :=
  let entry := entryLabel blocks
  blocks.findSome? fun p =>
    match p.2.body with
    | [.jump t] => if p.1 ≠ entry ∧ t ≠ p.1 then some (p.1, t) else none
    | _ => none

/-- One simplification step: remove one trivially-redundant jump-only block,
forwarding all references to its target. -/
def simplifyStep (blocks : Blocks) : Blocks :=
  match findTrivialJump blocks with
  | some (l, t) => redirectLabel l t (alPop blocks l)
  | none => blocks

/-- Modelled from the spec: `simplify_CFG` merges trivially-redundant
jump-only blocks (each such block is removed and references to it are
forwarded to its target). -/
def simplify_CFG (blocks : Blocks) : Blocks :=
  iterN simplifyStep blocks.length blocks

/-!  ## Errors and pass state  -/

/-- Error classes raised by the passes: `errors.UnsupportedError`,
`errors.CompilerError`, and plain Python exceptions
(KeyError / IndexError / AttributeError / AssertionError / ValueError),
collected as `internal`. -/
inductive ErrKind where
  | unsupported
  | compiler
  | internal
deriving DecidableEq, Repr

/-- A raised error: class and message (source locations are dropped). -/
structure Err where
  kind : ErrKind
  msg : String
deriving DecidableEq, Repr

/-- A generic Python-level exception. -/
def internalErr (msg : String) : Err := { kind := .internal, msg := msg }

/-- The compilation state as consumed by the analysed passes:
`state.func_ir`, `state.typemap` (partial, possibly empty / absent),
`state.return_type`, `state.calltypes`. -/
structure State where
  func_ir : FuncIR
  typemap : List (VName × Ty)
  return_type : Option Ty
  calltypes : Option Unit
deriving DecidableEq, Repr

/-!  ## `MixedContainerUnroller.gen_switch`  -/

/-- Comma-joined index list, as produced by `','.join(map(str, ...))`. -/
def joinComma (l : List Nat) : String :=
  String.intercalate "," (l.map toString)

/-- The `elif` template of `gen_switch`, instantiated at an index list. -/
def elif_tplt (idxs : List Nat) : String :=
  "\n\telif PLACEHOLDER_INDEX in (" ++ joinComma idxs ++ ",):\n\t\tSENTINEL = None"

/-- The switch-table source text built by `gen_switch` (the string the
source passes to `exec`); empty switch data would raise an IndexError and
yields the empty string here. -/
def gen_switch_src (data : List (Ty × List Nat)) : String :=
  match data.map Prod.fst with
  | [] => ""
  | k0 :: krest =>
      "def foo():\n\tif PLACEHOLDER_INDEX in (" ++ joinComma ((alGet data k0).getD [])
        ++ ",):\n\t\tSENTINEL = None\n"
        ++ String.join (krest.map fun k => elif_tplt ((alGet data k).getD []))
        ++ "\n\telse:\n\t\traise RuntimeError(\"Unreachable\")"

/-- Substring test over character lists (structural). -/
def charListHasSub (pat : List Char) : List Char → Bool
  | [] => pat.isEmpty
  | c :: rest => pat.isPrefixOf (c :: rest) || charListHasSub pat rest

/-- Containment of the literal text `SENTINEL` in a variable name
(`"SENTINEL" in stmt.target.name`). -/
def VName.hasSentinel : VName → Bool
  | .str s => charListHasSub "SENTINEL".toList s.toList
  | .uniq b _ => b.hasSentinel

/-- Modelled from the spec: the IR of the compiled switch table.  The
source `exec`s the text of `gen_switch_src` and recompiles it with
`compile_to_numba_ir`; following the design note, the block graph is built
directly: one test block and one sentinel block per branch in map order,
a defensive raise block, and a single exit block.  The
`PLACEHOLDER_INDEX` global reads are already replaced by `index`
(the defining right-hand side of the loop index), as done by the loop at
the end of `gen_switch`.  Fresh local names are drawn from the global
counter. -/
def switchTestBlocks (index : RVal) (ctr K i : Nat) (idxs : List Nat) : Blocks :=
  let pidx := VName.uniq (.str "PLACEHOLDER_INDEX") (ctr + 3 * i)
  let condv := VName.uniq (.str "$cond") (ctr + 3 * i + 1)
  let sent := VName.uniq (.str "SENTINEL") (ctr + 3 * i + 2)
  let elseLbl := 2 * K
  let exitLbl := 2 * K + 1
  let nextTest := if i + 1 = K then elseLbl else 2 * (i + 1)
  [(2 * i, Block.mk [.assign index pidx,
                     .assign (.expr (.inSet pidx idxs)) condv,
                     .branch condv (2 * i + 1) nextTest]),
   (2 * i + 1, Block.mk [.assign (.const .pynone) sent, .jump exitLbl])]

/-- The test/sentinel block pairs of the switch, one pair per branch, in
map order starting at branch `i`. -/
def switchBranchBlocks (index : RVal) (ctr K : Nat) : Nat → List (List Nat) → Blocks
  | _, [] => []
  | i, idxs :: rest =>
      switchTestBlocks index ctr K i idxs ++ switchBranchBlocks index ctr K (i + 1) rest

def gen_switch (data : List (Ty × List Nat)) (index : RVal) (ctr : Nat) : FuncIR × Nat :=
  let K := data.length
  let elseLbl := 2 * K
  let exitLbl := 2 * K + 1
  let retv := VName.uniq (.str "$retnone") (ctr + 3 * K)
  let blocks := switchBranchBlocks index ctr K 0 (data.map Prod.snd) ++
    [(elseLbl, Block.mk [.raiseStmt]),
     (exitLbl, Block.mk [.assign (.const .pynone) retv, .ret retv])]
  ({ blocks := blocks, defs := build_definitions blocks, livemap := [] }, ctr + 3 * K + 1)

/-- The branch guard sets of the generated switch, in branch order (the
index lists of the type map, first key giving the `if`, later keys the
`elif`s). -/
def genSwitchBranches (data : List (Ty × List Nat)) : List (List Nat) :=
  data.map Prod.snd

/-- Runtime dispatch of the if/elif chain: the position of the first branch
whose guard set contains the index, `none` when the defensive `else` is
reached. -/
def switchTake (branches : List (List Nat)) (i : Nat) : Option Nat :=
  branches.findIdx? fun br => br.contains i

/-!  ## `MixedContainerUnroller.add_offset_to_labels_w_ignore` and
 `MixedContainerUnroller.inject_loop_body`  -/

/-- Embedding of `add_offset_to_labels_w_ignore`: add `offset` to every
block label and to every jump/branch target not in the ignore list (only
the final statement of a block is a terminator). -/
def add_offset_to_labels_w_ignore (blocks : Blocks) (offset : Nat) (ignore : List Nat) : Blocks :=
  blocks.map fun p =>
    let b := p.2
    let newBody :=
      match b.body.getLast? with
      | some (.jump t) =>
          b.body.dropLast ++ [Stmt.jump (if t ∈ ignore then t else t + offset)]
      | some (.branch c tb fb) =>
          b.body.dropLast ++
            [Stmt.branch c (if tb ∈ ignore then tb else tb + offset)
                           (if fb ∈ ignore then fb else fb + offset)]
      | _ => b.body
    (p.1 + offset, Block.mk newBody)

/-- Labels of the blocks containing a `SENTINEL` assignment, in block-map
order. -/
def sentinelBlocks (switchBlocks : Blocks) : List Nat :=
  (switchBlocks.filter fun p =>
    p.2.body.any fun s =>
      match s with
      | .assign _ t => t.hasSentinel
      | _ => false).map Prod.fst

/-- The set of terminator targets of the sentinel blocks
(`sentinel_exits`); a sentinel block whose terminator is not a jump has no
`target` attribute and contributes nothing (the source would raise). -/
def sentinelExits (switchBlocks : Blocks) (sblocks : List Nat) : List Nat :=
  dedupFirst (sblocks.filterMap fun l =>
    match (alGet switchBlocks l).bind (fun b => b.body.getLast?) with
    | some (.jump t) => some t
    | _ => none)

/-- Jump/branch targets of a block map that leave the map
(the `ignore_set` of `inject_loop_body`). -/
def computeIgnoreSet (loopBlocks : Blocks) : List Nat :=
  let localLbl := alKeys loopBlocks
  dedupFirst (loopBlocks.foldr
    (fun p acc => p.2.body.foldr
      (fun s acc =>
        match s with
        | .jump t => if t ∈ localLbl then acc else t :: acc
        | .branch _ tb fb =>
            (if tb ∈ localLbl then [] else [tb]) ++
            (if fb ∈ localLbl then [] else [fb]) ++ acc
        | _ => acc) acc) [])

/-- The `typed_getitem` rewrite of one statement for one branch type: a
literal branch type becomes a fresh constant assignment plus a copy (the
fresh name is added to the do-not-rename list), any other branch type is
written into the `typed_getitem` dtype slot. -/
def fixTypedGetitemStmt (branchTy : Ty) (s : Stmt) (ctr : Nat) (dontReplace : List VName) :
    List Stmt × Nat × List VName :=
  match s with
  | .assign (.expr (.typed_getitem v _ i)) tgt =>
      if branchTy.isLiteral then
        let (newConstName, ctr1) := mk_unique_var (.str "branch_const") ctr
        ([.assign (.const branchTy.literalValue) newConstName,
          .assign (.var newConstName) tgt], ctr1, dontReplace ++ [newConstName])
      else
        ([.assign (.expr (.typed_getitem v branchTy i)) tgt], ctr, dontReplace)
  | s => ([s], ctr, dontReplace)

/-- The `typed_getitem` rewrite over the statements of one block. -/
def fixTypedGetitemBody (branchTy : Ty) : List Stmt → Nat → List VName →
    List Stmt × Nat × List VName
  | [], ctr, dr => ([], ctr, dr)
  | s :: rest, ctr, dr =>
      let (ss, ctr1, dr1) := fixTypedGetitemStmt branchTy s ctr dr
      let (rest1, ctr2, dr2) := fixTypedGetitemBody branchTy rest ctr1 dr1
      (ss ++ rest1, ctr2, dr2)

/-- The `typed_getitem` rewrite over a block map. -/
def fixTypedGetitemBlocks (branchTy : Ty) : Blocks → Nat → List VName →
    Blocks × Nat × List VName
  | [], ctr, dr => ([], ctr, dr)
  | (l, b) :: rest, ctr, dr =>
      let (body1, ctr1, dr1) := fixTypedGetitemBody branchTy b.body ctr dr
      let (rest1, ctr2, dr2) := fixTypedGetitemBlocks branchTy rest ctr1 dr1
      ((l, Block.mk body1) :: rest1, ctr2, dr2)

/-- The rename dict of one injected copy: one `mk_unique_var` name per
remaining variable-table entry, in table order. -/
def mkRenameDict : List VName → Nat → List (VName × VName) × Nat
  | [], ctr => ([], ctr)
  | n :: rest, ctr =>
      let (v, ctr1) := mk_unique_var n ctr
      let (σ, ctr2) := mkRenameDict rest ctr1
      ((n, v) :: σ, ctr2)

/-- Largest key of a block map (`max(blocks.keys())`, 0 when empty). -/
def maxKey (blocks : Blocks) : Nat := (alKeys blocks).foldr max 0

/-- Smallest key of a block map (`min(blocks.keys())`, 0 when empty). -/
def minKey (blocks : Blocks) : Nat :=
  match alKeys blocks with
  | [] => 0
  | k :: t => t.foldr min k

/-- Result of processing one sentinel/branch pair of `inject_loop_body`:
the updated switch block map, do-not-rename list and fresh counter, plus
the relabelled, type-fixed, renamed loop-body copy that was spliced in. -/
structure BranchResult where
  switchBlocks : Blocks
  dontReplace : List VName
  ctr : Nat
  copy : Blocks
deriving DecidableEq, Repr

/-- The body of the per-branch loop of `inject_loop_body` for one
sentinel/branch-type pair: deep-copy the loop blocks, shift their labels
above the current switch labels (leaving escaping targets alone), rewrite
the `typed_getitem`s for this branch type, rename everything not in the
do-not-rename list with fresh names, then splice the copy over the
sentinel block. -/
def inject_branch (loopIRBlocks : Blocks) (ignoreSet : List Nat)
    (switchBlocks : Blocks) (dontReplace : List VName) (ctr : Nat)
    (lbl : Nat) (branchTy : Ty) : BranchResult :=
  let loopBlocks := loopIRBlocks
  let maxLabel := maxKey switchBlocks
  let loopBlocks := add_offset_to_labels_w_ignore loopBlocks (maxLabel + 1) ignoreSet
  let loopStartLbl := minKey loopBlocks
  let (loopBlocks, ctr, dontReplace) := fixTypedGetitemBlocks branchTy loopBlocks ctr dontReplace
  let varTable := (get_name_var_table loopBlocks).filter (· ∉ dontReplace)
  let (σ, ctr) := mkRenameDict varTable ctr
  let loopBlocks := replace_var_names loopBlocks σ
  let switchBlocks := alSet switchBlocks lbl ((alGet loopBlocks loopStartLbl).getD (Block.mk []))
  let remaining := (alKeys loopBlocks).filter (· ≠ loopStartLbl)
  let switchBlocks := remaining.foldl
    (fun sb k => alSet sb k ((alGet loopBlocks k).getD (Block.mk []))) switchBlocks
  { switchBlocks := switchBlocks, dontReplace := dontReplace, ctr := ctr, copy := loopBlocks }

/-- Iterated `inject_branch` over the sentinel/branch-type pairs. -/
def injectFold (loopIRBlocks : Blocks) (ignoreSet : List Nat) :
    Blocks → List VName → Nat → List (Nat × Ty) → Blocks × List VName × Nat
  | sb, dr, ctr, [] => (sb, dr, ctr)
  | sb, dr, ctr, (lbl, ty) :: rest =>
      let r := inject_branch loopIRBlocks ignoreSet sb dr ctr lbl ty
      injectFold loopIRBlocks ignoreSet r.switchBlocks r.dontReplace r.ctr rest

/-- The list of injected loop-body copies produced along `injectFold`, in
branch order (auxiliary observer used to state the renaming claims). -/
def injectCopies (loopIRBlocks : Blocks) (ignoreSet : List Nat) :
    Blocks → List VName → Nat → List (Nat × Ty) → List Blocks
  | _, _, _, [] => []
  | sb, dr, ctr, (lbl, ty) :: rest =>
      let r := inject_branch loopIRBlocks ignoreSet sb dr ctr lbl ty
      r.copy :: injectCopies loopIRBlocks ignoreSet r.switchBlocks r.dontReplace r.ctr rest

/-- Embedding of `inject_loop_body`: splice a copy of the loop body over
every sentinel of the switch IR (one per branch type), then shift the whole
result above the caller labels.  The two source `assert`s are modelled as
internal errors. -/
def inject_loop_body (switch_ir : FuncIR) (loop_ir : FuncIR) (callerMaxLabel : Nat)
    (dontReplace : List VName) (switchData : List (Ty × List Nat)) (ctr : Nat) :
    Except Err (FuncIR × List VName × Nat) :=
  let sblocks := sentinelBlocks switch_ir.blocks
  let sexits := sentinelExits switch_ir.blocks sblocks
  match sexits with
  | [theExit] =>
      let switchBlocks := alPop switch_ir.blocks theExit
      let ignoreSet := computeIgnoreSet loop_ir.blocks
      if sblocks.length = switchData.length then
        let pairs := sblocks.zip (switchData.map Prod.fst)
        let (sb, dr, ctr1) := injectFold loop_ir.blocks ignoreSet switchBlocks dontReplace ctr pairs
        let final := add_offset_to_labels_w_ignore sb (callerMaxLabel + 1) ignoreSet
        .ok ({ blocks := final, defs := switch_ir.defs, livemap := switch_ir.livemap }, dr, ctr1)
      else
        .error (internalErr "assert len(sentinel_blocks) == len(switch_data)")
  | _ => .error (internalErr "assert len(sentinel_exits) == 1")

/-!  ## `MixedContainerUnroller.apply_transform`: the eligibility scan  -/

/-- The `args` attribute of a right-hand side (`getattr(dfn, "args", False)`). -/
def RVal.argsAttr : RVal → Option (List VName)
  | .expr e => e.argsAttr
  | _ => none

/-- One eligibility record (`unroll_info = namedtuple(..., ["loop", "call",
"arg", "getitem"])`). -/
structure UnrollInfo where
  loop : Loop
  call : Expr
  arg : VName
  getitem : Stmt
deriving DecidableEq, Repr

/-- Outcome of scanning one loop in `apply_transform`: `abort` is the early
`return False` (header without exactly one `iternext`), `skip` is a
`continue`, `found` records an eligibility entry keyed by the label of the
block containing the conforming getitem. -/
inductive ScanOutcome where
  | abort
  | skip
  | found (lbl : Nat) (ui : UnrollInfo)
deriving DecidableEq, Repr

/-- Evaluate `get_definition(x.value)` for a chased definition `x`: an
expression without a `value` attribute raises; a non-expression definition
yields a plain Python object, which fails the following
`isinstance(..., ir.Expr)` test (`none`). -/
def defOfValueAttr (fir : FuncIR) (r : RVal) : Except Err (Option RVal) :=
  match r with
  | .expr e =>
      (match e.valueAttr with
       | none => .error (internalErr "AttributeError: value")
       | some v =>
           match fir.get_definition (.var v) with
           | none => .error (internalErr "get_definition failed")
           | some d => .ok (some d))
  | _ => .ok none

/-- Evaluate `get_definition(call.func).value is literal_unroll`. -/
def rvalIsLiteralUnroll : RVal → Except Err Bool
  | .global _ g => .ok (g = .gliteral_unroll)
  | .const _ => .ok false
  | .var _ => .ok false
  | .expr e =>
      match e.valueAttr with
      | some _ => .ok false
      | none => .error (internalErr "AttributeError: value")

/-- The conforming-getitem test of the body scan: a getitem on the unroll
target, either directly (`a[i]`) or through one definition chase
(`ref(a)[i]`), with the target typed as an accepted container.  The inner
`get_definition` is unguarded in the source, so its failure raises. -/
def conformingGetitem (fir : FuncIR) (typemap : List (VName × Ty)) (arg : VName) (s : Stmt) :
    Except Err Bool :=
  match s with
  | .assign (.expr (.getitem v _)) _ =>
      let viaDef : Except Err Bool :=
        if v = arg then .ok true
        else
          match fir.get_definition (.var v) with
          | none => .error (internalErr "get_definition failed")
          | some dfn =>
              match dfn.argsAttr with
              | some (a0 :: _) => .ok (a0 = arg)
              | _ => .ok false
      (match viaDef with
       | .error e => .error e
       | .ok false => .ok false
       | .ok true =>
           match alGet typemap arg with
           | none => .error (internalErr "KeyError: typemap")
           | some tty => .ok tty.isAcceptedContainer)
  | _ => .ok false

/-- Search one block for the first conforming getitem. -/
def findGetitemInBlock (fir : FuncIR) (typemap : List (VName × Ty)) (arg : VName) :
    List Stmt → Except Err (Option Stmt)
  | [] => .ok none
  | s :: rest =>
      match conformingGetitem fir typemap arg s with
      | .error e => .error e
      | .ok true => .ok (some s)
      | .ok false => findGetitemInBlock fir typemap arg rest

/-- Search the loop body (label set iterated in ascending order) for the
first conforming getitem, returning the label of the block holding it. -/
def findGetitemInBody (fir : FuncIR) (typemap : List (VName × Ty)) (arg : VName) :
    List Nat → Except Err (Option (Nat × Stmt))
  | [] => .ok none
  | l :: rest =>
      match alGet fir.blocks l with
      | none => .error (internalErr "KeyError: blocks")
      | some b =>
          match findGetitemInBlock fir typemap arg b.body with
          | .error e => .error e
          | .ok (some s) => .ok (some (l, s))
          | .ok none => findGetitemInBody fir typemap arg rest

/-- Computation monad of the per-loop scan: a value, or an early exit
carrying either a raised error or a final scan outcome (a `continue` or the
early `return False`). -/
abbrev ScanM (α : Type) : Type := Except (Except Err ScanOutcome) α

/-- Early exit of the scan with a final outcome. -/
def ScanM.fin {α : Type} (o : ScanOutcome) : ScanM α := .error (.ok o)

/-- Early exit of the scan with a raised error. -/
def ScanM.die {α : Type} (e : Err) : ScanM α := .error (.error e)

/-- Collapse the scan computation to its outcome. -/
def runScanM (m : ScanM ScanOutcome) : Except Err ScanOutcome :=
  match m with
  | .ok o => .ok o
  | .error r => r

/-- Scan one loop of the loop set of `apply_transform` (step 0): check the
header spells `range(len(literal_unroll(container)))` and the body holds a
conforming getitem.  Each step mirrors one source check: a `continue`
is `ScanM.fin .skip`, the early `return False` on a header without exactly
one `iternext` is `ScanM.fin .abort`, an uncaught Python exception is
`ScanM.die`. -/
def scanLoop (fir : FuncIR) (typemap : List (VName × Ty)) (loop : Loop) :
    Except Err ScanOutcome :=
  runScanM do
    let hdr ←
      match alGet fir.blocks loop.header with
      | none => ScanM.die (internalErr "KeyError: blocks[loop.header]")
      | some b => pure b
    let iternextExpr ←
      match hdr.find_exprs "iternext" with
      | [e] => pure e
      | _ => ScanM.fin .abort
    let itv ←
      match iternextExpr.valueAttr with
      | some v => pure v
      | none => ScanM.die (internalErr "AttributeError: value")
    let phi ←
      match fir.get_definition (.var itv) with
      | some d => pure d
      | none => ScanM.fin .skip
    let rangeDef ←
      match defOfValueAttr fir phi with
      | .ok (some d) => pure d
      | .ok none => ScanM.fin .skip
      | .error e => ScanM.die e
    let (rfunc, rargs) ←
      match rangeDef with
      | .expr (.call f as) => pure (f, as)
      | _ => ScanM.fin .skip
    let rglob ←
      match fir.get_definition (.var rfunc) with
      | some d => pure d
      | none => ScanM.die (internalErr "get_definition failed")
    let rg ←
      match rglob with
      | .global _ g => pure g
      | _ => ScanM.fin .skip
    if rg ≠ GVal.grange then ScanM.fin .skip
    let range_arg ←
      match rargs with
      | a :: _ => pure a
      | [] => ScanM.die (internalErr "IndexError: args[0]")
    let lenDef ←
      match fir.get_definition (.var range_arg) with
      | some d => pure d
      | none => ScanM.die (internalErr "get_definition failed")
    let (lfunc, largs) ←
      match lenDef with
      | .expr (.call f as) => pure (f, as)
      | _ => ScanM.fin .skip
    let lglob ←
      match fir.get_definition (.var lfunc) with
      | some d => pure d
      | none => ScanM.die (internalErr "get_definition failed")
    let lg ←
      match lglob with
      | .global _ g => pure g
      | _ => ScanM.fin .skip
    if lg ≠ GVal.glen then ScanM.fin .skip
    let len_arg ←
      match largs with
      | a :: _ => pure a
      | [] => ScanM.die (internalErr "IndexError: args[0]")
    let luDef ←
      match fir.get_definition (.var len_arg) with
      | some d => pure d
      | none => ScanM.die (internalErr "get_definition failed")
    let (luFunc, luArgs) ←
      match luDef with
      | .expr (.call f as) => pure (f, as)
      | _ => ScanM.fin .skip
    let cfd ←
      match fir.get_definition (.var luFunc) with
      | some d => pure d
      | none => ScanM.die (internalErr "get_definition failed")
    let isLU ←
      match rvalIsLiteralUnroll cfd with
      | .ok b => pure b
      | .error e => ScanM.die e
    if ¬ isLU then ScanM.fin .skip
    let arg ←
      match luArgs with
      | [a] => pure a
      | _ => ScanM.die (internalErr "assert len(args) == 1")
    let ty ←
      match alGet typemap arg with
      | some t => pure t
      | none => ScanM.die (internalErr "KeyError: typemap")
    if ¬ ty.isAcceptedContainer then
      ScanM.die (internalErr "assert isinstance(ty, accepted)")
    let found ←
      match findGetitemInBody fir typemap arg loop.body with
      | .ok r => pure r
      | .error e => ScanM.die e
    match found with
    | none => ScanM.fin .skip
    | some (glbl, gstmt) =>
        pure (ScanOutcome.found glbl
          { loop := loop, call := .call luFunc luArgs, arg := arg, getitem := gstmt })

/-- Step 0 of `apply_transform` over all loops, accumulating eligibility
records keyed by getitem-block label; a loop with no single header
`iternext` returns `False` (here `none`) for the whole transform. -/
def scanLoops (fir : FuncIR) (typemap : List (VName × Ty)) :
    List (Nat × Loop) → List (Nat × UnrollInfo) →
    Except Err (Option (List (Nat × UnrollInfo)))
  | [], acc => .ok (some acc)
  | (_, loop) :: rest, acc =>
      match scanLoop fir typemap loop with
      | .error e => .error e
      | .ok .abort => .ok none
      | .ok .skip => scanLoops fir typemap rest acc
      | .ok (.found lbl ui) => scanLoops fir typemap rest (alSet acc lbl ui)

/-- The error raised on nested marked loops. -/
def nestingErr : Err :=
  { kind := .unsupported, msg := "Nesting of literal_unroll is unsupported" }

/-- Inner loop of the nesting validation: compare one record against every
other record. -/
def validateInner (tl : Nat) (ti : UnrollInfo) :
    List (Nat × UnrollInfo) → Except Err Unit
  | [] => .ok ()
  | (rl, ri) :: rest =>
      if tl = rl then validateInner tl ti rest
      else if ti.loop.header ∈ ri.loop.body then .error nestingErr
      else validateInner tl ti rest

/-- Step 1 of `apply_transform`: fail with `UnsupportedError` when the
header of one eligible loop lies in the body of another. -/
def validate_nesting :
    List (Nat × UnrollInfo) → List (Nat × UnrollInfo) → Except Err Unit
  | [], _ => .ok ()
  | (tl, ti) :: rest, all =>
      match validateInner tl ti all with
      | .error e => .error e
      | .ok () => validate_nesting rest all

/-!  ## `MixedContainerUnroller.unroll_loop`  -/

/-- Collect every conforming getitem of one block, in statement order. -/
def collectGetitemsBlock (fir : FuncIR) (typemap : List (VName × Ty)) (arg : VName) :
    List Stmt → Except Err (List Stmt)
  | [] => .ok []
  | s :: rest =>
      match conformingGetitem fir typemap arg s with
      | .error e => .error e
      | .ok b =>
          match collectGetitemsBlock fir typemap arg rest with
          | .error e => .error e
          | .ok l => .ok (if b then s :: l else l)

/-- Collect every conforming getitem of the loop body (step 1 of
`unroll_loop`), body labels in ascending order. -/
def collectGetitems (fir : FuncIR) (typemap : List (VName × Ty)) (arg : VName) :
    List Nat → Except Err (List Stmt)
  | [] => .ok []
  | l :: rest =>
      match alGet fir.blocks l with
      | none => .error (internalErr "KeyError: blocks")
      | some b =>
          match collectGetitemsBlock fir typemap arg b.body with
          | .error e => .error e
          | .ok here =>
              match collectGetitems fir typemap arg rest with
              | .error e => .error e
              | .ok there => .ok (here ++ there)

/-- Swap one statement for its `typed_getitem` placeholder when it is a
conforming getitem (step 4 of `unroll_loop`). -/
def swapStmt (fir : FuncIR) (typemap : List (VName × Ty)) (arg : VName) (s : Stmt) :
    Except Err Stmt :=
  match conformingGetitem fir typemap arg s with
  | .error e => .error e
  | .ok true =>
      (match s with
       | .assign (.expr (.getitem v i)) tgt =>
           .ok (.assign (.expr (.typed_getitem v .void i)) tgt)
       | s => .ok s)
  | .ok false => .ok s

/-- Swap every conforming getitem inside the loop-body blocks for a
`typed_getitem` placeholder of dtype `types.void`. -/
def swapGetitemsBlocks (fir : FuncIR) (typemap : List (VName × Ty)) (arg : VName)
    (bodyLabels : List Nat) : Except Err Blocks :=
  let swapBody : List Stmt → Except Err (List Stmt) := fun body =>
    body.foldr
      (fun s acc =>
        match acc with
        | .error e => .error e
        | .ok rest =>
            match swapStmt fir typemap arg s with
            | .error e => .error e
            | .ok s1 => .ok (s1 :: rest))
      (.ok [])
  fir.blocks.foldr
    (fun p acc =>
      match acc with
      | .error e => .error e
      | .ok rest =>
          if p.1 ∈ bodyLabels then
            match swapBody p.2.body with
            | .error e => .error e
            | .ok body1 => .ok ((p.1, Block.mk body1) :: rest)
          else .ok (p :: rest))
    (.ok [])

/-- Embedding of `MixedContainerUnroller.unroll_loop`: find the conforming
getitems, build the switch data and switch IR, swap the getitems for
placeholders, inject the loop body per branch and splice the result over
the original loop body, finally repointing the header branch at the new
body.  The cached `livemap` is read for the do-not-rename set. -/
def unroll_loop (state : State) (loopInfo : UnrollInfo) (ctr : Nat) :
    Except (Err × State) (State × Nat) :=
  let fir := state.func_ir
  let getitem_target := loopInfo.arg
  match alGet state.typemap getitem_target with
  | none => .error (internalErr "KeyError: typemap", state)
  | some target_ty =>
    if target_ty.isAcceptedContainer then
      match collectGetitems fir state.typemap getitem_target loopInfo.loop.body with
      | .error e => .error (e, state)
      | .ok [] =>
          .error ({ kind := .compiler,
                    msg := "Loop unrolling analysis has failed, no getitem in loop body conforms to literal_unroll requirements." },
                  state)
      | .ok (g0 :: _) =>
        let switch_data := analyse_tuple target_ty.tupleElems
        match g0 with
        | .assign (.expr (.getitem _ i0)) _ =>
          (match alGet fir.defs i0 with
           | some (d0 :: _) =>
             let (branches, ctr1) := gen_switch switch_data d0 ctr
             (match swapGetitemsBlocks fir state.typemap getitem_target loopInfo.loop.body with
              | .error e => .error (e, state)
              | .ok blocks1 =>
                let fir1 := { fir with blocks := blocks1 }
                let state1 := { state with func_ir := fir1 }
                let this_loop := loopInfo.loop
                let this_loop_body := this_loop.body.filter (· ≠ this_loop.header)
                if this_loop_body.all (fun x => alHas blocks1 x) then
                  let loop_blocks := this_loop_body.filterMap
                    (fun x => (alGet blocks1 x).map (fun b => (x, b)))
                  let new_ir : FuncIR :=
                    { blocks := loop_blocks, defs := fir1.defs, livemap := fir1.livemap }
                  let usedefs := compute_use_defs blocks1
                  let idx := this_loop.header
                  let keep := dedupFirst ((alGet usedefs.usemap idx).getD [] ++
                    (alGet usedefs.defmap idx).getD [] ++ (alGet fir1.livemap idx).getD [])
                  let dont_replace := keep
                  match inject_loop_body branches new_ir (maxKey blocks1) dont_replace
                      switch_data ctr1 with
                  | .error e => .error (e, state1)
                  | .ok (unrolled, _, ctr2) =>
                    match this_loop_body with
                    | [] => .error (internalErr "ValueError: not enough values to unpack", state1)
                    | replaceLbl :: deleteLbls =>
                      match (alKeys unrolled.blocks) |> sortNat with
                      | [] => .error (internalErr "IndexError: unroll labels", state1)
                      | u0 :: urest =>
                        let blks := alSet blocks1 replaceLbl
                          ((alGet unrolled.blocks u0).getD (Block.mk []))
                        let blks := deleteLbls.foldl alPop blks
                        let blks := urest.foldl
                          (fun b k => alSet b k ((alGet unrolled.blocks k).getD (Block.mk []))) blks
                        match alGet blks this_loop.header with
                        | none => .error (internalErr "KeyError: blocks[header]", state1)
                        | some hb =>
                          match hb.body.getLast? with
                          | some (.branch c _ fb) =>
                              let blks := alSet blks this_loop.header
                                (Block.mk (hb.body.dropLast ++ [.branch c replaceLbl fb]))
                              .ok ({ state1 with func_ir := { fir1 with blocks := blks } }, ctr2)
                          | _ => .error (internalErr "AttributeError: truebr", state1)
                else .error (internalErr "KeyError: blocks", state1)
              )
           | _ => .error (internalErr "KeyError: _definitions", state))
        | _ => .error (internalErr "AttributeError: value.index", state)
    else .error (internalErr "assert isinstance(target_ty, accepted)", state)

namespace MixedContainerUnroller

/-- Embedding of `MixedContainerUnroller.apply_transform`: recompute the
CFG loops, scan for eligibility records, validate the absence of nesting,
then unroll exactly one record (`popitem`, the last inserted), re-simplify
the CFG and rebuild the definitions table and liveness. -/
def apply_transform (state : State) (ctr : Nat) :
    Except (Err × State) (Bool × State × Nat) :=
  let fir := state.func_ir
  let loops := loopsOf fir.blocks
  match scanLoops fir state.typemap loops [] with
  | .error e => .error (e, state)
  | .ok none => .ok (false, state, ctr)
  | .ok (some literalUnrollInfo) =>
    if literalUnrollInfo.isEmpty then .ok (false, state, ctr)
    else
      match validate_nesting literalUnrollInfo literalUnrollInfo with
      | .error e => .error (e, state)
      | .ok () =>
        match literalUnrollInfo.getLast? with
        | none => .ok (false, state, ctr)
        | some (_, info) =>
          match unroll_loop state info ctr with
          | .error es => .error es
          | .ok (state1, ctr1) =>
            let blocks2 := simplify_CFG state1.func_ir.blocks
            let fir2 : FuncIR :=
              { blocks := blocks2, defs := build_definitions blocks2,
                livemap := computeLiveMap blocks2 }
            .ok (true, { state1 with func_ir := fir2 }, ctr1)

/-- The fixed-point loop of `run_pass` (`while True: stat = apply_transform;
mutated |= stat; if not stat: break`), bounded by fuel; `none` is
non-termination within the given fuel. -/
def run_pass_loop : Nat → State → Nat → Bool → Except (Err × State) (Option (Bool × State))
  | 0, _, _, _ => .ok none
  | fuel + 1, state, ctr, muta =>
      match apply_transform state ctr with
      | .error e => .error e
      | .ok (false, s1, _) => .ok (some (muta, s1))
      | .ok (true, s1, c1) => run_pass_loop fuel s1 c1 true

/-- Embedding of `MixedContainerUnroller.run_pass`: simplify the CFG,
run `apply_transform` to a fixed point, then unconditionally reset the
partial typing results (`state.typemap = {}`, `state.return_type = None`,
`state.calltypes = None`) and report whether the IR was mutated. -/
def run_pass (fuel : Nat) (state : State) (ctr : Nat) :
    Except (Err × State) (Option (Bool × State)) :=
  let fir0 := state.func_ir
  let s0 := { state with func_ir := { fir0 with blocks := simplify_CFG fir0.blocks } }
  match run_pass_loop fuel s0 ctr false with
  | .error e => .error e
  | .ok none => .ok none
  | .ok (some (muta, s1)) =>
      .ok (some (muta, { s1 with typemap := [], return_type := none, calltypes := none }))

end MixedContainerUnroller

/-!  ## `IterLoopCanonicalization`  -/

/-- Computation with early exit: a value, or a final result (either a raised
error or a returned value of type `ρ`). -/
abbrev EarlyM (ρ α : Type) : Type := Except (Except Err ρ) α

/-- Early return with a final value. -/
def EarlyM.fin {ρ α : Type} (r : ρ) : EarlyM ρ α := .error (.ok r)

/-- Early exit with a raised error. -/
def EarlyM.die {ρ α : Type} (e : Err) : EarlyM ρ α := .error (.error e)

/-- Collapse the early-exit computation to its result. -/
def runEarlyM {ρ : Type} (m : EarlyM ρ ρ) : Except Err ρ :=
  match m with
  | .ok r => .ok r
  | .error r => r

/-- Unwrap an optional value or raise an internal error. -/
def ofOpt {α : Type} (o : Option α) (msg : String) : Except Err α :=
  match o with
  | some a => .ok a
  | none => .error (internalErr msg)

namespace IterLoopCanonicalization

/-- `IterLoopCanonicalization._accepted_calls = (literal_unroll,)`. -/
def _accepted_calls : List GVal := [.gliteral_unroll]

/-- Embedding of `IterLoopCanonicalization.assess_loop`: a loop is accepted
when its header is driven by exactly one `iternext` of a `getiter`-defined
value and it has exactly one entry; when a partial typemap is available the
`getiter` argument must additionally be a one-argument call to an accepted
global (`literal_unroll`, compared by value identity, not by name) whose
argument is typed as an accepted container.  Code paths falling off the end
return Python `None`, collapsed to `false`; uncaught exceptions are
errors. -/
def assess_loop (loop : Loop) (fir : FuncIR) (partial_typemap : List (VName × Ty)) :
    Except Err Bool :=
  runEarlyM do
    let hdr ←
      match alGet fir.blocks loop.header with
      | none => EarlyM.die (internalErr "KeyError: blocks[loop.header]")
      | some b => pure b
    let iternextExpr ←
      match hdr.find_exprs "iternext" with
      | [e] => pure e
      | _ => EarlyM.fin false
    let itv ←
      match iternextExpr.valueAttr with
      | some v => pure v
      | none => EarlyM.die (internalErr "AttributeError: value")
    let phi ←
      match fir.get_definition (.var itv) with
      | some d => pure d
      | none => EarlyM.fin false
    let phiVal ←
      match phi with
      | .expr (.getiter v) => pure v
      | _ => EarlyM.fin false
    if partial_typemap.isEmpty then
      EarlyM.fin (loop.entries.length == 1)
    else
      let phiValDefn ←
        match fir.get_definition (.var phiVal) with
        | some d => pure d
        | none => EarlyM.die (internalErr "get_definition failed")
      let callExpr ←
        match phiValDefn with
        | .expr e => pure e
        | _ => EarlyM.fin false
      let (cfunc, cargs) ←
        match callExpr with
        | .call f as => pure (f, as)
        | _ => EarlyM.fin false
      if cargs.length ≠ 1 then EarlyM.fin false
      let funcVar ←
        match fir.get_definition (.var cfunc) with
        | some d => pure d
        | none => EarlyM.die (internalErr "get_definition failed")
      let fglobal ←
        match funcVar with
        | .global _ g => pure g
        | _ => EarlyM.fin false
      if fglobal ∉ _accepted_calls then EarlyM.fin false
      let a0 ←
        match cargs with
        | a :: _ => pure a
        | [] => EarlyM.die (internalErr "IndexError: args[0]")
      match alGet partial_typemap a0 with
      | some ty =>
          if ty.isAcceptedContainer then pure (loop.entries.length == 1)
          else EarlyM.fin false
      | none => EarlyM.fin false

/-- Modelled from the spec: `get_assignee` finds, in the given block, the
target of the first assignment whose right-hand side equals the given
value. -/
def get_assignee (fir : FuncIR) (rhs : RVal) (lbl : Nat) : Option VName :=
  (alGet fir.blocks lbl).bind fun b =>
    b.body.findSome? fun s =>
      match s with
      | .assign v t => if v = rhs then some t else none
      | _ => none

/-- Modelled from the spec: `inline_closure_call` inlines the body of the
`get_range` helper (`range(len(a))`) at its call site: the call statement is
replaced by direct statements computing `len(a)` then `range(...)` into the
call target.  Fresh names are drawn from the global counter. -/
def inlineGetRange (argv : VName) (target : VName) (ctr : Nat) : List Stmt × Nat :=
  let (lenG, c1) := mk_unique_var (.str "$inline_len_gbl") ctr
  let (lenR, c2) := mk_unique_var (.str "$inline_len_res") c1
  let (rngG, c3) := mk_unique_var (.str "$inline_range_gbl") c2
  let (rngR, c4) := mk_unique_var (.str "$inline_range_res") c3
  ([.assign (.global "len" .glen) lenG,
    .assign (.expr (.call lenG [argv])) lenR,
    .assign (.global "range" .grange) rngG,
    .assign (.expr (.call rngG [lenR])) rngR,
    .assign (.var rngR) target], c4)

/-- The downstream rewrite of `transform` on one statement: an assignment
whose whole right-hand side is an induction variable becomes a getitem on
the iterated value indexed by that same variable; all other statements
(including other reads of the induction variables) are left unchanged. -/
def rewriteInductionStmt (inductionVars : List VName) (iterarg : VName) (s : Stmt) : Stmt :=
  match s with
  | .assign (.var v) tgt =>
      if v ∈ inductionVars then .assign (.expr (.getitem iterarg v)) tgt else s
  | s => s

/-- Embedding of `IterLoopCanonicalization.transform`: synthesize
`range(len(X))` inlined at the loop entry, swap the `getiter` argument for
it, find the induction variable (targets of the header `pair_first`s) and
its one-step aliases in the header, then rewrite whole-right-hand-side
reads of these variables in the loop body, exits and their stale-CFG
successors (symmetric difference with the header) into `X[i]` getitems.
The stale CFG computed at `run_pass` entry supplies the successors.  The
liveness and definition tables are rebuilt at the end (`PostProcessor`). -/
def transform (loop : Loop) (fir : FuncIR) (cfgBlocks : Blocks) (ctr : Nat) :
    Except Err (FuncIR × Nat) := do
  let hdrBlk ← ofOpt (alGet fir.blocks loop.header) "KeyError: blocks[loop.header]"
  let iternextExpr ←
    match hdrBlk.find_exprs "iternext" with
    | e :: _ => pure e
    | [] => .error (internalErr "IndexError: iternext")
  let itv ← ofOpt iternextExpr.valueAttr "AttributeError: value"
  let (get_range_var, c1) := mk_unique_var (.str "get_range_gbl") ctr
  let assgn := Stmt.assign (.global "get_range" .gget_range) get_range_var
  let loop_entry ←
    match loop.entries with
    | l :: _ => pure l
    | [] => .error (internalErr "IndexError: entries")
  let entryBlk ← ofOpt (alGet fir.blocks loop_entry) "KeyError: blocks[entry]"
  let body0 := assgn :: entryBlk.body
  let phi ← ofOpt (fir.get_definition (.var itv)) "get_definition failed"
  let iterarg ←
    match phi with
    | .expr e => ofOpt e.valueAttr "AttributeError: value"
    | _ => .error (internalErr "AttributeError: value")
  let idx ← ofOpt
    (body0.findIdx? fun s =>
      match s with
      | .assign (.expr (.getiter _)) _ => true
      | _ => false)
    "ValueError: problem"
  let gstmt ← ofOpt (body0.get? idx) "IndexError"
  let (gv, gtgt) ←
    match gstmt with
    | .assign (.expr (.getiter v)) t => pure (v, t)
    | _ => .error (internalErr "getiter expected")
  let (call_get_range_var, c2) := mk_unique_var (.str "call_get_range") c1
  let body1 := body0.take idx ++
    [Stmt.assign (.expr (.call get_range_var [gv])) call_get_range_var,
     Stmt.assign (.expr (.getiter call_get_range_var)) gtgt] ++
    body0.drop (idx + 1)
  let (inlined, c3) := inlineGetRange gv call_get_range_var c2
  let body2 := body1.take idx ++ inlined ++ body1.drop (idx + 1)
  let body3 := body2.erase assgn
  let fir1 : FuncIR := { fir with blocks := alSet fir.blocks loop_entry (Block.mk body3) }
  let headerBlock ← ofOpt (alGet fir1.blocks loop.header) "KeyError: blocks[loop.header]"
  let ind := headerBlock.find_exprs "pair_first"
  let iv0 := dedupFirst (ind.filterMap fun e => get_assignee fir1 (.expr e) loop.header)
  let tmp := dedupFirst (iv0.filterMap fun x => get_assignee fir1 (.var x) loop.header)
  let induction_vars := dedupFirst (iv0 ++ tmp)
  let succ := dedupFirst ((loop.exits.map (successorsOf cfgBlocks)).foldr (· ++ ·) [])
  let unionSet := dedupFirst (loop.body ++ loop.exits ++ succ)
  let check_blocks :=
    (if loop.header ∈ unionSet then unionSet.filter (· ≠ loop.header)
     else unionSet ++ [loop.header]) |> sortNat
  let fir2 ← check_blocks.foldlM
    (fun (f : FuncIR) lbl =>
      match alGet f.blocks lbl with
      | none => .error (internalErr "KeyError: blocks")
      | some b =>
          let nb := b.body.map (rewriteInductionStmt induction_vars iterarg)
          pure { f with blocks := alSet f.blocks lbl (Block.mk nb) })
    fir1
  let blocksF := fir2.blocks
  pure ({ blocks := blocksF, defs := build_definitions blocksF,
          livemap := computeLiveMap blocksF }, c3)

/-- The per-loop fold of `run_pass`: assess each loop of the stale loop set
against the current IR; transform the accepted ones. -/
def run_pass_go (cfgBlocks : Blocks) :
    List (Nat × Loop) → State → Nat → Bool → Except (Err × State) (Bool × State × Nat)
  | [], state, ctr, mutated =>
      let fir := state.func_ir
      .ok (mutated, { state with func_ir := { fir with blocks := simplify_CFG fir.blocks } }, ctr)
  | (_, loop) :: rest, state, ctr, mutated =>
      match assess_loop loop state.func_ir state.typemap with
      | .error e => .error (e, state)
      | .ok false => run_pass_go cfgBlocks rest state ctr mutated
      | .ok true =>
          match transform loop state.func_ir cfgBlocks ctr with
          | .error e => .error (e, state)
          | .ok (fir1, c1) =>
              run_pass_go cfgBlocks rest { state with func_ir := fir1 } c1 true

/-- Embedding of `IterLoopCanonicalization.run_pass`: compute the CFG and
its loops once, assess and transform each loop, then simplify the CFG and
report whether anything was transformed. -/
def run_pass (state : State) (ctr : Nat) : Except (Err × State) (Bool × State × Nat) :=
  let cfgBlocks := state.func_ir.blocks
  let loops := loopsOf cfgBlocks
  run_pass_go cfgBlocks loops state ctr false

end IterLoopCanonicalization

/-!  ## Concrete inputs for counterexamples and witnesses  -/

/-- Shorthand for plain string names. -/
def vstr (s : String) : VName := VName.str s

/-- The statement sequence spelling `it = getiter(range(len(literal_unroll(t))))`,
shared by the concrete loop inputs.  `sfx` distinguishes name copies. -/
def unrollChain (t : String) (sfx : String) (it : String) : List Stmt :=
  [.assign (.const (.int 0)) (vstr t),
   .assign (.global "literal_unroll" .gliteral_unroll) (vstr ("lug" ++ sfx)),
   .assign (.expr (.call (vstr ("lug" ++ sfx)) [vstr t])) (vstr ("lu" ++ sfx)),
   .assign (.global "len" .glen) (vstr ("leng" ++ sfx)),
   .assign (.expr (.call (vstr ("leng" ++ sfx)) [vstr ("lu" ++ sfx)])) (vstr ("lenr" ++ sfx)),
   .assign (.global "range" .grange) (vstr ("rgg" ++ sfx)),
   .assign (.expr (.call (vstr ("rgg" ++ sfx)) [vstr ("lenr" ++ sfx)])) (vstr ("rgr" ++ sfx)),
   .assign (.expr (.getiter (vstr ("rgr" ++ sfx)))) (vstr it)]

/-- A loop header block: `p = iternext(it); i = pair_first(p);
c = pair_second(p); branch c, bodyLbl, exitLbl`. -/
def iterHeader (it p i c : String) (bodyLbl exitLbl : Nat) : Block :=
  Block.mk
    [.assign (.expr (.iternext (vstr it))) (vstr p),
     .assign (.expr (.pair_first (vstr p))) (vstr i),
     .assign (.expr (.pair_second (vstr p))) (vstr c),
     .branch (vstr c) bodyLbl exitLbl]

/-- Blocks of the nested-unroll input: two eligible `literal_unroll` loops,
the inner loop (header 15) nested in the body of the outer loop (header 5),
plus a trivially-redundant jump-only block 3 between the entry and the
outer header. -/
def cx1Blocks : Blocks :=
  [(0, Block.mk (unrollChain "t1" "1" "it1" ++ [.jump 3])),
   (3, Block.mk [.jump 5]),
   (5, iterHeader "it1" "p1" "i1" "c1" 10 40),
   (10, Block.mk ([.assign (.expr (.getitem (vstr "t1") (vstr "i1"))) (vstr "x1")] ++
                  unrollChain "t2" "2" "it2" ++ [.jump 15])),
   (15, iterHeader "it2" "p2" "i2" "c2" 20 30),
   (20, Block.mk [.assign (.expr (.getitem (vstr "t2") (vstr "i2"))) (vstr "x2"), .jump 15]),
   (30, Block.mk [.assign (.var (vstr "x2")) (vstr "y"), .jump 5]),
   (40, Block.mk [.ret (vstr "x1")])]

/-- Typemap of the nested-unroll input: both containers are mixed tuples. -/
def cx1Typemap : List (VName × Ty) :=
  [(vstr "t1", .tupleTy [.int64, .float64]),
   (vstr "t2", .tupleTy [.int64, .eOther "unicode"])]

/-- The nested-unroll input state. -/
def cx1State : State :=
  { func_ir := { blocks := cx1Blocks, defs := build_definitions cx1Blocks,
                 livemap := [] },
    typemap := cx1Typemap, return_type := none, calltypes := some () }

/-- The nested-unroll input state after the CFG simplification `run_pass`
performs on entry (block 3 merged away). -/
def cx1SimplState : State :=
  { cx1State with
    func_ir := { cx1State.func_ir with blocks := simplify_CFG cx1State.func_ir.blocks } }

/-- Blocks of the abort input: loop A (header 5) is a plain branch loop with
no `iternext`; loop B (header 10) is a fully eligible `literal_unroll`
loop. -/
def cx6Blocks : Blocks :=
  [(0, Block.mk (unrollChain "t" "" "it" ++
                 [.assign (.const (.int 1)) (vstr "q"), .jump 5])),
   (5, Block.mk [.branch (vstr "q") 7 10]),
   (7, Block.mk [.assign (.var (vstr "q")) (vstr "z"), .jump 5]),
   (10, iterHeader "it" "p" "i" "c" 15 20),
   (15, Block.mk [.assign (.expr (.getitem (vstr "t") (vstr "i"))) (vstr "x"), .jump 10]),
   (20, Block.mk [.ret (vstr "x")])]

/-- Typemap of the abort input. -/
def cx6Typemap : List (VName × Ty) := [(vstr "t", .tupleTy [.int64, .float64])]

/-- The abort input state. -/
def cx6State : State :=
  { func_ir := { blocks := cx6Blocks, defs := build_definitions cx6Blocks,
                 livemap := [] },
    typemap := cx6Typemap, return_type := none, calltypes := some () }

/-- Blocks of the canonicalization input: a `getiter` loop over
`literal_unroll(t)` in pre-canonical (iterator) form. -/
def cx5Blocks : Blocks :=
  [(0, Block.mk
      [.assign (.const (.int 0)) (vstr "t"),
       .assign (.global "literal_unroll" .gliteral_unroll) (vstr "lug"),
       .assign (.expr (.call (vstr "lug") [vstr "t"])) (vstr "lu"),
       .assign (.expr (.getiter (vstr "lu"))) (vstr "it"),
       .jump 10]),
   (10, iterHeader "it" "p" "x" "c" 20 30),
   (20, Block.mk [.assign (.var (vstr "x")) (vstr "y"), .jump 10]),
   (30, Block.mk [.ret (vstr "y")])]

/-- The canonicalization input with a partial typemap (marker accepted). -/
def cx5State : State :=
  { func_ir := { blocks := cx5Blocks, defs := build_definitions cx5Blocks,
                 livemap := [] },
    typemap := [(vstr "t", .tupleTy [.int64, .float64])],
    return_type := none, calltypes := some () }

/-- The canonicalization input without a typemap. -/
def cx5NoTmState : State := { cx5State with typemap := [] }

/-- Run the canonicalizer twice and report the `mutated` flag of the second
run (`none` when either run raises or the shape is unexpected). -/
def ILC_runTwiceSecondMutated (s : State) (c : Nat) : Option Bool :=
  match IterLoopCanonicalization.run_pass s c with
  | .ok (_, s1, c1) =>
      (match IterLoopCanonicalization.run_pass s1 c1 with
       | .ok (m2, _, _) => some m2
       | _ => none)
  | _ => none

/-- Blocks of the induction-reference input: the loop body copies the
induction variable (`y = x`, a whole-right-hand-side read) and also reads
it inside a call (`z = f(x)`). -/
def cx4Blocks : Blocks :=
  [(0, Block.mk
      [.assign (.const (.int 0)) (vstr "a"),
       .assign (.global "f" (.gother "f")) (vstr "f"),
       .assign (.expr (.getiter (vstr "a"))) (vstr "it"),
       .jump 10]),
   (10, iterHeader "it" "p" "x" "c" 20 30),
   (20, Block.mk [.assign (.var (vstr "x")) (vstr "y"),
                  .assign (.expr (.call (vstr "f") [vstr "x"])) (vstr "z"),
                  .jump 10]),
   (30, Block.mk [.ret (vstr "y")])]

/-- The induction-reference input state (no typemap, so the loop is
accepted). -/
def cx4State : State :=
  { func_ir := { blocks := cx4Blocks, defs := build_definitions cx4Blocks,
                 livemap := [] },
    typemap := [], return_type := none, calltypes := some () }

/-- A loop-free state with stale partial typing results (for the
frame-effect claims). -/
def cw10State : State :=
  { func_ir := { blocks := [(0, Block.mk [.ret (vstr "r")])],
                 defs := [], livemap := [] },
    typemap := [(vstr "r", .elem .int64)], return_type := some (.elem .int64),
    calltypes := some () }

/-!  ## Shared auxiliary definitions for the claim statements  -/

deriving instance DecidableEq for Except

set_option maxRecDepth 10000

/-- The block map produced by canonicalizing `cx5Blocks` (the `getiter` is
now fed by the inlined `range(len(...))` computation and the loop body reads
`lu[x]`). -/
def cx5After : Blocks :=
  [(0, Block.mk
      [.assign (.const (.int 0)) (vstr "t"),
       .assign (.global "literal_unroll" .gliteral_unroll) (vstr "lug"),
       .assign (.expr (.call (vstr "lug") [vstr "t"])) (vstr "lu"),
       .assign (.global "len" .glen) (.uniq (vstr "$inline_len_gbl") 102),
       .assign (.expr (.call (.uniq (vstr "$inline_len_gbl") 102) [vstr "lu"]))
         (.uniq (vstr "$inline_len_res") 103),
       .assign (.global "range" .grange) (.uniq (vstr "$inline_range_gbl") 104),
       .assign (.expr (.call (.uniq (vstr "$inline_range_gbl") 104)
         [.uniq (vstr "$inline_len_res") 103])) (.uniq (vstr "$inline_range_res") 105),
       .assign (.var (.uniq (vstr "$inline_range_res") 105)) (.uniq (vstr "call_get_range") 101),
       .assign (.expr (.getiter (.uniq (vstr "call_get_range") 101))) (vstr "it"),
       .jump 10]),
   (10, iterHeader "it" "p" "x" "c" 20 30),
   (20, Block.mk [.assign (.expr (.getitem (vstr "lu") (vstr "x"))) (vstr "y"), .jump 10]),
   (30, Block.mk [.ret (vstr "y")])]

/-- The canonicalized state over `cx5After` with a given typemap. -/
def cx5S1 (tm : List (VName × Ty)) : State :=
  { func_ir := { blocks := cx5After, defs := build_definitions cx5After,
                 livemap := computeLiveMap cx5After },
    typemap := tm, return_type := none, calltypes := some () }

/-- The `mutated` flag of a canonicalizer result. -/
def mutatedOf (r : Except (Err × State) (Bool × State × Nat)) : Option Bool :=
  match r with
  | .ok (m, _, _) => some m
  | _ => none

/-- The state `cw10State` after the reset performed by the unroll driver. -/
def cw10Reset : State :=
  { cw10State with typemap := [], return_type := none, calltypes := none }

/-- The outer branch loop of the abort input (header 5): its header holds
no `iternext`. -/
def cx6LoopA : Loop := { header := 5, entries := [0], body := [5, 7], exits := [10] }

/-- The eligible `literal_unroll` loop of the abort input (header 10). -/
def cx6LoopB : Loop := { header := 10, entries := [5], body := [10, 15], exits := [20] }

/-- The eligibility record the scan produces for `cx6LoopB` in isolation. -/
def cx6UI : UnrollInfo :=
  { loop := cx6LoopB, call := .call (vstr "lug") [vstr "t"], arg := vstr "t",
    getitem := .assign (.expr (.getitem (vstr "t") (vstr "i"))) (vstr "x") }

/-- The abort-input state after the typing reset of the unroll driver. -/
def cx6Reset : State := { cx6State with typemap := [], return_type := none, calltypes := none }


/-- The state as rebuilt on entry to the unroll driver: the original state
with its block map replaced by its CFG simplification. -/
def simplifiedState (state : State) : State :=
  { state with func_ir := { state.func_ir with blocks := simplify_CFG state.func_ir.blocks } }

/-- The eligibility record of the outer loop of the nested-unroll input. -/
def cx1InfoOuter : UnrollInfo :=
  { loop := { header := 5, entries := [0], body := [5, 10, 15, 20, 30], exits := [40] },
    call := .call (vstr "lug1") [vstr "t1"], arg := vstr "t1",
    getitem := .assign (.expr (.getitem (vstr "t1") (vstr "i1"))) (vstr "x1") }

/-- The eligibility record of the inner loop of the nested-unroll input. -/
def cx1InfoInner : UnrollInfo :=
  { loop := { header := 15, entries := [10], body := [15, 20], exits := [30] },
    call := .call (vstr "lug2") [vstr "t2"], arg := vstr "t2",
    getitem := .assign (.expr (.getitem (vstr "t2") (vstr "i2"))) (vstr "x2") }


/-- The block at a given label of a canonicalizer result (`none` when the
run raised or the label is absent). -/
def blockOf (r : Except (Err × State) (Bool × State × Nat)) (lbl : Nat) : Option Block :=
  match r with
  | .ok (_, s, _) => alGet s.func_ir.blocks lbl
  | _ => none


/-- The rename dict one `inject_branch` step draws (recomputed from the same
inputs; auxiliary observer used to state the renaming claims). -/
def branchDict (loopIRBlocks : Blocks) (ignore : List Nat) (sb : Blocks)
    (dr : List VName) (ctr : Nat) (ty : Ty) : List (VName × VName) × Nat :=
  mkRenameDict
    ((get_name_var_table (fixTypedGetitemBlocks ty
        (add_offset_to_labels_w_ignore loopIRBlocks (maxKey sb + 1) ignore) ctr dr).1).filter
      (· ∉ (fixTypedGetitemBlocks ty
        (add_offset_to_labels_w_ignore loopIRBlocks (maxKey sb + 1) ignore) ctr dr).2.2))
    (fixTypedGetitemBlocks ty
      (add_offset_to_labels_w_ignore loopIRBlocks (maxKey sb + 1) ignore) ctr dr).2.1

/-- The rename dicts drawn along `injectFold`, in branch order (auxiliary
observer used to state the renaming claims). -/
def injectDicts (loopIRBlocks : Blocks) (ignore : List Nat) :
    Blocks → List VName → Nat → List (Nat × Ty) → List (List (VName × VName))
  | _, _, _, [] => []
  | sb, dr, ctr, (lbl, ty) :: rest =>
      let r := inject_branch loopIRBlocks ignore sb dr ctr lbl ty
      (branchDict loopIRBlocks ignore sb dr ctr ty).1 ::
        injectDicts loopIRBlocks ignore r.switchBlocks r.dontReplace r.ctr rest

/-- One-block loop body for the renaming witness: a `typed_getitem` of the
container and a copy, naming `t`, `i`, `x`, `y`. -/
def cw2Loop : Blocks :=
  [(0, Block.mk
      [.assign (.expr (.typed_getitem (vstr "t") (.elem .int64) (vstr "i"))) (vstr "x"),
       .assign (.var (vstr "x")) (vstr "y"),
       .jump 0])]

/-- Switch blocks for the renaming witness (two sentinel slots). -/
def cw2SB : Blocks := [(1, Block.mk [.jump 1]), (2, Block.mk [.jump 2])]

/-- Do-not-rename set for the renaming witness: the container and index. -/
def cw2DR : List VName := [vstr "t", vstr "i"]

/-- Sentinel/branch-type pairs for the renaming witness. -/
def cw2Pairs : List (Nat × Ty) := [(1, Ty.elem .float64), (2, Ty.elem .int64)]

/-- The relabelled, type-fixed body of the first renaming-witness branch. -/
def cw2B1 : Blocks :=
  [(3, Block.mk
      [.assign (.expr (.typed_getitem (vstr "t") (.elem .float64) (vstr "i"))) (vstr "x"),
       .assign (.var (vstr "x")) (vstr "y"),
       .jump 3])]

/-- The rename dict of the first renaming-witness branch. -/
def cw2Dict : List (VName × VName) :=
  [(vstr "x", .uniq (vstr "x") 50), (vstr "y", .uniq (vstr "y") 51)]


/-!  ## Claims  -/

/-- C9: the linear-algebra adapter classifies the return code of the
underlying inversion routine three ways: negative codes invoke the
process-fatal error routine, positive codes raise the user-visible
singular-matrix error, and zero returns normally. -/
theorem C9_inv_err_handler_classification (r : Int) :
    (r < 0 → _inv_err_handler r = .fatal) ∧
    (r > 0 → _inv_err_handler r = .linAlgError "Matrix is singular and cannot be inverted.") ∧
    (r = 0 → _inv_err_handler r = .ok) := by
  refine ⟨fun h => ?_, fun h => ?_, fun h => ?_⟩ <;>
    simp only [_inv_err_handler, ne_eq] <;>
    [skip; skip; simp [h]]
  · rw [if_pos (by omega), if_pos h]
  · rw [if_pos (by omega), if_neg (by omega), if_pos h]

/-- Witness for C9 at the concrete return codes -3, 2 and 0. -/
theorem C9_witness :
    _inv_err_handler (-3) = .fatal ∧
    _inv_err_handler 2 = .linAlgError "Matrix is singular and cannot be inverted." ∧
    _inv_err_handler 0 = .ok :=
  ⟨(C9_inv_err_handler_classification (-3)).1 (by decide),
   (C9_inv_err_handler_classification 2).2.1 (by decide),
   (C9_inv_err_handler_classification 0).2.2 rfl⟩

/-- C10: whenever `MixedContainerUnroller.run_pass` returns (with any
mutation flag, in particular `false`), the partial typing results have been
reset: the typemap is the empty map and the return type and call types are
`None`. -/
theorem C10_run_pass_clears_partial_typing (fuel ctr : Nat) (s : State) (m : Bool)
    (s' : State)
    (h : MixedContainerUnroller.run_pass fuel s ctr = .ok (some (m, s'))) :
    s'.typemap = [] ∧ s'.return_type = none ∧ s'.calltypes = none := by
  unfold MixedContainerUnroller.run_pass at h
  dsimp only at h
  split at h
  · exact absurd h (by simp)
  · exact absurd h (by simp)
  · rename_i muta s1 heq
    simp only [Except.ok.injEq, Option.some.injEq, Prod.mk.injEq] at h
    rw [← h.2]
    exact ⟨rfl, rfl, rfl⟩

/-- Witness for C10: a loop-free state with stale typing results is reset
even though the pass mutates nothing. -/
theorem C10_witness :
    cw10Reset.typemap = [] ∧ cw10Reset.return_type = none ∧ cw10Reset.calltypes = none :=
  C10_run_pass_clears_partial_typing 1 0 cw10State false cw10Reset (by decide)

/-!  ## Lemmas for the switch-table claims  -/

/-- Concatenation of the per-type index lists of a switch map. -/
def joinIdx (d : List (Ty × List Nat)) : List Nat :=
  (d.map Prod.snd).foldr (· ++ ·) []

theorem joinIdx_dAppend_count (d : List (Ty × List Nat)) (ty : Ty) (i j : Nat) :
    (joinIdx (dAppend d ty i)).count j =
      (joinIdx d).count j + if j = i then 1 else 0 := by
  induction d with
  | nil =>
      by_cases hj : j = i <;> simp [dAppend, joinIdx, List.count_cons, hj]
  | cons hd tl ih =>
      obtain ⟨t, l⟩ := hd
      by_cases h : t = ty
      · simp only [dAppend, if_pos h, joinIdx, List.map_cons, List.foldr_cons,
          List.count_append] at *
        by_cases hj : j = i <;> simp [hj, List.count_cons] <;> omega
      · simp only [dAppend, if_neg h, joinIdx, List.map_cons, List.foldr_cons,
          List.count_append] at *
        rw [ih]
        omega

theorem joinIdx_foldl_count (l : List (Nat × Ty)) (acc : List (Ty × List Nat)) (j : Nat) :
    (joinIdx (l.foldl (fun d p => dAppend d p.2 p.1) acc)).count j =
      (joinIdx acc).count j + (l.map Prod.fst).count j := by
  induction l generalizing acc with
  | nil => simp
  | cons hd tl ih =>
      obtain ⟨i, ty⟩ := hd
      simp only [List.foldl_cons, List.map_cons]
      rw [ih, joinIdx_dAppend_count, List.count_cons]
      by_cases hj : j = i <;> simp [hj] <;> omega

theorem analyse_tuple_count (tup : List Ty) (j : Nat) :
    (joinIdx (analyse_tuple tup)).count j = (List.range tup.length).count j := by
  unfold analyse_tuple
  rw [joinIdx_foldl_count]
  simp [joinIdx, List.enum_map_fst]

theorem analyse_tuple_join_perm (tup : List Ty) :
    (joinIdx (analyse_tuple tup)).Perm (List.range tup.length) :=
  List.perm_iff_count.2 fun j => analyse_tuple_count tup j

theorem alKeys_dAppend (d : List (Ty × List Nat)) (ty : Ty) (i : Nat) :
    alKeys (dAppend d ty i) =
      if ty ∈ alKeys d then alKeys d else alKeys d ++ [ty] := by
  induction d with
  | nil => simp [dAppend, alKeys]
  | cons hd tl ih =>
      obtain ⟨t, l⟩ := hd
      by_cases h : t = ty
      · simp [dAppend, h, alKeys]
      · simp only [dAppend, if_neg h, alKeys, List.map_cons] at *
        rw [ih]
        have hne : ¬ (ty = t) := fun c => h c.symm
        by_cases h2 : ty ∈ tl.map Prod.fst <;>
          simp [h2, List.mem_cons, hne]

theorem dedupFirstAux_congr {α : Type} [DecidableEq α] (s1 s2 : List α)
    (h : ∀ a, a ∈ s1 ↔ a ∈ s2) (l : List α) :
    dedupFirstAux s1 l = dedupFirstAux s2 l := by
  induction l generalizing s1 s2 with
  | nil => rfl
  | cons x t ih =>
      simp only [dedupFirstAux]
      by_cases hx : x ∈ s1
      · rw [if_pos hx, if_pos ((h x).1 hx), ih _ _ h]
      · rw [if_neg hx, if_neg (fun c => hx ((h x).2 c)), ih]
        intro a
        simp only [List.mem_cons, h a]

theorem alKeys_foldl (l : List (Nat × Ty)) (acc : List (Ty × List Nat)) :
    alKeys (l.foldl (fun d p => dAppend d p.2 p.1) acc) =
      alKeys acc ++ dedupFirstAux (alKeys acc) (l.map Prod.snd) := by
  induction l generalizing acc with
  | nil => simp [dedupFirstAux]
  | cons hd tl ih =>
      obtain ⟨i, ty⟩ := hd
      simp only [List.foldl_cons, List.map_cons, dedupFirstAux]
      by_cases h : ty ∈ alKeys acc
      · rw [ih, alKeys_dAppend, if_pos h, if_pos h]
      · rw [ih, alKeys_dAppend, if_neg h, if_neg h]
        rw [dedupFirstAux_congr (alKeys acc ++ [ty]) (ty :: alKeys acc)
          (by intro a; simp [List.mem_append, List.mem_cons, or_comm])]
        simp

theorem analyse_tuple_keys (tup : List Ty) :
    alKeys (analyse_tuple tup) = dedupFirst tup := by
  unfold analyse_tuple dedupFirst
  rw [alKeys_foldl]
  simp [alKeys, List.enum_map_snd]

theorem sentinelBlocks_append (a b : Blocks) :
    sentinelBlocks (a ++ b) = sentinelBlocks a ++ sentinelBlocks b := by
  simp [sentinelBlocks, List.filter_append]

theorem hasSentinel_uniq (b : VName) (k : Nat) :
    (VName.uniq b k).hasSentinel = b.hasSentinel := rfl

theorem sentinelBlocks_testBlocks (index : RVal) (ctr K i : Nat) (idxs : List Nat) :
    sentinelBlocks (switchTestBlocks index ctr K i idxs) = [2 * i + 1] := by
  have h1 : (VName.str "PLACEHOLDER_INDEX").hasSentinel = false := by decide
  have h2 : (VName.str "$cond").hasSentinel = false := by decide
  have h3 : (VName.str "SENTINEL").hasSentinel = true := by decide
  simp [switchTestBlocks, sentinelBlocks, List.filter, hasSentinel_uniq, h1, h2, h3]

theorem sentinelBlocks_branches (index : RVal) (ctr K : Nat) (bs : List (List Nat)) :
    ∀ i, sentinelBlocks (switchBranchBlocks index ctr K i bs) =
      (List.range bs.length).map (fun k => 2 * (i + k) + 1) := by
  induction bs with
  | nil => intro i; rfl
  | cons hd tl ih =>
      intro i
      rw [switchBranchBlocks, sentinelBlocks_append, sentinelBlocks_testBlocks, ih (i + 1)]
      rw [List.length_cons, List.range_succ_eq_map, List.map_cons, List.map_map,
        List.singleton_append]
      congr 1
      refine List.map_congr_left fun k _ => ?_
      simp only [Function.comp_apply]
      omega

theorem switchTake_isSome_of_mem (brs : List (List Nat)) (i : Nat)
    (h : ∃ br ∈ brs, i ∈ br) : (switchTake brs i).isSome = true := by
  induction brs with
  | nil => rcases h with ⟨br, hbr, _⟩; cases hbr
  | cons hd tl ih =>
      unfold switchTake
      rw [List.findIdx?_cons]
      by_cases hm : i ∈ hd
      · simp [hm]
      · rcases h with ⟨br, hbr, him⟩
        rcases List.mem_cons.1 hbr with rfl | hbr2
        · exact absurd him hm
        · have h2 := ih ⟨br, hbr2, him⟩
          simp only [switchTake] at h2
          simp only [List.contains, List.elem_eq_mem] at h2
          simp [hm, h2]

/-- C3: the type→indices map built by `analyse_tuple` partitions the index
set `0..N-1` (the concatenation of its index lists is a permutation of
`range N`: every index appears exactly once, no gap, no overlap); its key
order is first-occurrence order of the element types scanning the slots
left to right; the switch generated by `gen_switch` has exactly one
`SENTINEL` branch per distinct type key, laid out in map order (branch `k`
guards the k-th index list and its sentinel block is label `2k+1`); and the
defensive else branch is unreachable for every index in `0..N-1` (the
if/elif chain always takes some branch). -/
theorem C3_analyse_tuple_gen_switch_partition (cty : Ty) (index : RVal) (ctr : Nat)
    (hacc : cty.isAcceptedContainer = true) :
    (joinIdx (analyse_tuple cty.tupleElems)).Perm (List.range cty.tupleElems.length) ∧
    alKeys (analyse_tuple cty.tupleElems) = dedupFirst cty.tupleElems ∧
    sentinelBlocks (gen_switch (analyse_tuple cty.tupleElems) index ctr).1.blocks =
      (List.range (analyse_tuple cty.tupleElems).length).map (fun k => 2 * k + 1) ∧
    genSwitchBranches (analyse_tuple cty.tupleElems) =
      (analyse_tuple cty.tupleElems).map Prod.snd ∧
    (∀ i, i < cty.tupleElems.length →
      (switchTake (genSwitchBranches (analyse_tuple cty.tupleElems)) i).isSome = true) := by
  refine ⟨analyse_tuple_join_perm _, analyse_tuple_keys _, ?_, rfl, ?_⟩
  · show sentinelBlocks (switchBranchBlocks index ctr _ 0 _ ++ _) = _
    rw [sentinelBlocks_append, sentinelBlocks_branches]
    have hrest : sentinelBlocks
        [(2 * (analyse_tuple cty.tupleElems).length, Block.mk [.raiseStmt]),
         (2 * (analyse_tuple cty.tupleElems).length + 1,
           Block.mk [.assign (.const .pynone)
             (VName.uniq (.str "$retnone") (ctr + 3 * (analyse_tuple cty.tupleElems).length)),
             .ret (VName.uniq (.str "$retnone")
               (ctr + 3 * (analyse_tuple cty.tupleElems).length))])] = [] := by
      have h4 : (VName.str "$retnone").hasSentinel = false := by decide
      simp [sentinelBlocks, List.filter, hasSentinel_uniq, h4]
    rw [hrest, List.append_nil, List.length_map]
    refine List.map_congr_left fun k _ => by omega
  · intro i hi
    refine switchTake_isSome_of_mem _ _ ?_
    have hmem : i ∈ joinIdx (analyse_tuple cty.tupleElems) :=
      (analyse_tuple_join_perm _).mem_iff.2 (List.mem_range.2 hi)
    unfold joinIdx at hmem
    unfold genSwitchBranches
    generalize analyse_tuple cty.tupleElems = d at hmem ⊢
    induction d with
    | nil => cases hmem
    | cons hd tl ih =>
        simp only [List.map_cons, List.foldr_cons, List.mem_append] at hmem
        rcases hmem with h1 | h2
        · exact ⟨hd.2, List.mem_cons_self _ _, h1⟩
        · rcases ih h2 with ⟨br, hbr, hbri⟩
          exact ⟨br, List.mem_cons_of_mem _ hbr, hbri⟩

/-- Witness for C3 at a concrete mixed tuple with a repeated element type. -/
theorem C3_witness :
    (joinIdx (analyse_tuple (Ty.tupleTy [.int64, .float64, .int64]).tupleElems)).Perm
      (List.range (Ty.tupleTy [.int64, .float64, .int64]).tupleElems.length) ∧
    alKeys (analyse_tuple (Ty.tupleTy [.int64, .float64, .int64]).tupleElems) =
      dedupFirst (Ty.tupleTy [.int64, .float64, .int64]).tupleElems ∧
    sentinelBlocks (gen_switch (analyse_tuple (Ty.tupleTy [.int64, .float64, .int64]).tupleElems)
        (.var (vstr "i")) 7).1.blocks =
      (List.range (analyse_tuple (Ty.tupleTy [.int64, .float64, .int64]).tupleElems).length).map
        (fun k => 2 * k + 1) ∧
    genSwitchBranches (analyse_tuple (Ty.tupleTy [.int64, .float64, .int64]).tupleElems) =
      (analyse_tuple (Ty.tupleTy [.int64, .float64, .int64]).tupleElems).map Prod.snd ∧
    (∀ i, i < (Ty.tupleTy [.int64, .float64, .int64]).tupleElems.length →
      (switchTake (genSwitchBranches
        (analyse_tuple (Ty.tupleTy [.int64, .float64, .int64]).tupleElems)) i).isSome = true) :=
  C3_analyse_tuple_gen_switch_partition (Ty.tupleTy [.int64, .float64, .int64])
    (.var (vstr "i")) 7 (by decide)

/-!  ## Lemmas for the acceptance claims  -/

theorem except_bind_ok {ε α β : Type} (a : α) (f : α → Except ε β) :
    ((Except.ok a : Except ε α) >>= f) = f a := rfl

theorem except_bind_error {ε α β : Type} (e : ε) (f : α → Except ε β) :
    ((Except.error e : Except ε α) >>= f) = Except.error e := rfl

theorem except_pure_def {ε α : Type} (a : α) :
    (pure a : Except ε α) = Except.ok a := rfl


/-- C8: acceptance conditions of `IterLoopCanonicalization.assess_loop`.
With no partial typemap, a loop is accepted exactly when its header holds a
single `iternext` whose value is defined by a `getiter` and the loop has
exactly one entry, regardless of any type or marker.  With a partial
typemap, acceptance holds exactly when additionally the `getiter` argument
is defined by a one-argument call whose function resolves to a global whose
value is the `literal_unroll` marker (under any global name: recognition is
by value identity, not by name) and whose argument is typed as a Tuple or
UniTuple. -/
theorem C8_assess_loop_acceptance (loop : Loop) (fir : FuncIR) :
    (IterLoopCanonicalization.assess_loop loop fir [] = .ok true ↔
      ∃ hdr e itv g,
        alGet fir.blocks loop.header = some hdr ∧
        hdr.find_exprs "iternext" = [e] ∧
        e.valueAttr = some itv ∧
        fir.get_definition (.var itv) = some (.expr (.getiter g)) ∧
        loop.entries.length = 1) ∧
    (∀ tm : List (VName × Ty), tm ≠ [] →
      (IterLoopCanonicalization.assess_loop loop fir tm = .ok true ↔
        ∃ hdr e itv g cf gname a0 ty,
          alGet fir.blocks loop.header = some hdr ∧
          hdr.find_exprs "iternext" = [e] ∧
          e.valueAttr = some itv ∧
          fir.get_definition (.var itv) = some (.expr (.getiter g)) ∧
          fir.get_definition (.var g) = some (.expr (.call cf [a0])) ∧
          fir.get_definition (.var cf) = some (.global gname .gliteral_unroll) ∧
          alGet tm a0 = some ty ∧
          ty.isAcceptedContainer = true ∧
          loop.entries.length = 1)) := by
  constructor
  · constructor
    · intro h
      unfold IterLoopCanonicalization.assess_loop at h
      rcases h1 : alGet fir.blocks loop.header with _ | hdr <;>
        simp only [h1, runEarlyM, EarlyM.fin, EarlyM.die, except_bind_ok, except_bind_error,
          except_pure_def, reduceCtorEq, Except.ok.injEq, Bool.false_eq_true] at h
      rcases h2 : hdr.find_exprs "iternext" with _ | ⟨e, rest⟩
      · simp only [h2, runEarlyM, EarlyM.fin, EarlyM.die, except_bind_ok, except_bind_error,
          except_pure_def, reduceCtorEq, Except.ok.injEq, Bool.false_eq_true] at h
      rcases rest with _ | ⟨e2, rest2⟩
      swap
      · simp only [h2, runEarlyM, EarlyM.fin, EarlyM.die, except_bind_ok, except_bind_error,
          except_pure_def, reduceCtorEq, Except.ok.injEq, Bool.false_eq_true] at h
      simp only [h2, except_bind_ok, except_pure_def] at h
      rcases h3 : e.valueAttr with _ | itv <;>
        simp only [h3, runEarlyM, EarlyM.fin, EarlyM.die, except_bind_ok, except_bind_error,
          except_pure_def, reduceCtorEq, Except.ok.injEq, Bool.false_eq_true] at h
      rcases h4 : fir.get_definition (.var itv) with _ | phi <;>
        simp only [h4, runEarlyM, EarlyM.fin, EarlyM.die, except_bind_ok, except_bind_error,
          except_pure_def, reduceCtorEq, Except.ok.injEq, Bool.false_eq_true] at h
      rcases phi with pe | ⟨gn, gv⟩ | cc | vv
      case global => simp [runEarlyM, EarlyM.fin, except_bind_error] at h
      case const => simp [runEarlyM, EarlyM.fin, except_bind_error] at h
      case var => simp [runEarlyM, EarlyM.fin, except_bind_error] at h
      rcases pe with ⟨f, as⟩ | g | iv | pf | ps | ⟨gv2, gi⟩ | ⟨tv, td, ti⟩ | ⟨sv, se⟩
      case getiter =>
        simp [runEarlyM, EarlyM.fin, except_bind_ok, except_bind_error, except_pure_def] at h
        exact ⟨hdr, e, itv, g, rfl, h2, h3, h4, h⟩
      all_goals simp [runEarlyM, EarlyM.fin, except_bind_error] at h
    · rintro ⟨hdr, e, itv, g, hh1, hh2, hh3, hh4, hh5⟩
      unfold IterLoopCanonicalization.assess_loop
      simp [hh1, hh2, hh3, hh4, hh5, runEarlyM, EarlyM.fin, EarlyM.die, except_bind_ok,
        except_bind_error, except_pure_def]
  · intro tm htm
    rcases tm with _ | ⟨tp, tmrest⟩
    · exact absurd rfl htm
    constructor
    · intro h
      unfold IterLoopCanonicalization.assess_loop at h
      rcases h1 : alGet fir.blocks loop.header with _ | hdr <;>
        simp only [h1, runEarlyM, EarlyM.fin, EarlyM.die, except_bind_ok, except_bind_error,
          except_pure_def, reduceCtorEq, Except.ok.injEq, Bool.false_eq_true] at h
      rcases h2 : hdr.find_exprs "iternext" with _ | ⟨e, rest⟩
      · simp only [h2, runEarlyM, EarlyM.fin, EarlyM.die, except_bind_ok, except_bind_error,
          except_pure_def, reduceCtorEq, Except.ok.injEq, Bool.false_eq_true] at h
      rcases rest with _ | ⟨e2, rest2⟩
      swap
      · simp only [h2, runEarlyM, EarlyM.fin, EarlyM.die, except_bind_ok, except_bind_error,
          except_pure_def, reduceCtorEq, Except.ok.injEq, Bool.false_eq_true] at h
      simp only [h2, except_bind_ok, except_pure_def] at h
      rcases h3 : e.valueAttr with _ | itv <;>
        simp only [h3, runEarlyM, EarlyM.fin, EarlyM.die, except_bind_ok, except_bind_error,
          except_pure_def, reduceCtorEq, Except.ok.injEq, Bool.false_eq_true] at h
      rcases h4 : fir.get_definition (.var itv) with _ | phi <;>
        simp only [h4, runEarlyM, EarlyM.fin, EarlyM.die, except_bind_ok, except_bind_error,
          except_pure_def, reduceCtorEq, Except.ok.injEq, Bool.false_eq_true] at h
      rcases phi with pe | ⟨gn, gv⟩ | cc | vv
      case global => simp [runEarlyM, EarlyM.fin, except_bind_error] at h
      case const => simp [runEarlyM, EarlyM.fin, except_bind_error] at h
      case var => simp [runEarlyM, EarlyM.fin, except_bind_error] at h
      rcases pe with ⟨f, as⟩ | g | iv | pf | ps | ⟨gv2, gi⟩ | ⟨tv, td, ti⟩ | ⟨sv, se⟩
      case call => simp [runEarlyM, EarlyM.fin, except_bind_error] at h
      case iternext => simp [runEarlyM, EarlyM.fin, except_bind_error] at h
      case pair_first => simp [runEarlyM, EarlyM.fin, except_bind_error] at h
      case pair_second => simp [runEarlyM, EarlyM.fin, except_bind_error] at h
      case getitem => simp [runEarlyM, EarlyM.fin, except_bind_error] at h
      case typed_getitem => simp [runEarlyM, EarlyM.fin, except_bind_error] at h
      case inSet => simp [runEarlyM, EarlyM.fin, except_bind_error] at h
      simp only [except_bind_ok, except_pure_def, List.isEmpty_cons, Bool.false_eq_true,
        if_false] at h
      rcases h5 : fir.get_definition (.var g) with _ | pvd <;>
        simp only [h5, runEarlyM, EarlyM.fin, EarlyM.die, except_bind_ok, except_bind_error,
          except_pure_def, reduceCtorEq, Except.ok.injEq, Bool.false_eq_true] at h
      rcases pvd with ce | ⟨gn, gv⟩ | cc | vv
      case global => simp [runEarlyM, EarlyM.fin, except_bind_error] at h
      case const => simp [runEarlyM, EarlyM.fin, except_bind_error] at h
      case var => simp [runEarlyM, EarlyM.fin, except_bind_error] at h
      rcases ce with ⟨cf, cargs⟩ | g2 | iv | pf | ps | ⟨gv2, gi⟩ | ⟨tv, td, ti⟩ | ⟨sv, se⟩
      case getiter => simp [runEarlyM, EarlyM.fin, except_bind_error] at h
      case iternext => simp [runEarlyM, EarlyM.fin, except_bind_error] at h
      case pair_first => simp [runEarlyM, EarlyM.fin, except_bind_error] at h
      case pair_second => simp [runEarlyM, EarlyM.fin, except_bind_error] at h
      case getitem => simp [runEarlyM, EarlyM.fin, except_bind_error] at h
      case typed_getitem => simp [runEarlyM, EarlyM.fin, except_bind_error] at h
      case inSet => simp [runEarlyM, EarlyM.fin, except_bind_error] at h
      rcases cargs with _ | ⟨a0, arest⟩
      · simp [runEarlyM, EarlyM.fin, except_bind_ok, except_bind_error, except_pure_def] at h
      rcases arest with _ | ⟨a1, arest2⟩
      swap
      · simp [runEarlyM, EarlyM.fin, except_bind_ok, except_bind_error, except_pure_def] at h
      simp only [except_bind_ok, except_pure_def, List.length_cons, List.length_nil,
        Nat.zero_add, ne_eq, not_true_eq_false, if_false] at h
      rcases h6 : fir.get_definition (.var cf) with _ | fv <;>
        simp only [h6, runEarlyM, EarlyM.fin, EarlyM.die, except_bind_ok, except_bind_error,
          except_pure_def, reduceCtorEq, Except.ok.injEq, Bool.false_eq_true] at h
      rcases fv with fe | ⟨gname, gval⟩ | cc | vv
      case expr => simp [runEarlyM, EarlyM.fin, except_bind_error] at h
      case const => simp [runEarlyM, EarlyM.fin, except_bind_error] at h
      case var => simp [runEarlyM, EarlyM.fin, except_bind_error] at h
      rcases gval with _ | _ | _ | _ | s
      case grange => simp [runEarlyM, EarlyM.fin, except_bind_error,
        IterLoopCanonicalization._accepted_calls] at h
      case glen => simp [runEarlyM, EarlyM.fin, except_bind_error,
        IterLoopCanonicalization._accepted_calls] at h
      case gget_range => simp [runEarlyM, EarlyM.fin, except_bind_error,
        IterLoopCanonicalization._accepted_calls] at h
      case gother => simp [runEarlyM, EarlyM.fin, except_bind_error,
        IterLoopCanonicalization._accepted_calls] at h
      simp only [except_bind_ok, except_pure_def, IterLoopCanonicalization._accepted_calls,
        List.mem_singleton, not_true_eq_false, if_false] at h
      rcases h7 : alGet (tp :: tmrest) a0 with _ | ty <;>
        simp only [h7, runEarlyM, EarlyM.fin, EarlyM.die, except_bind_ok, except_bind_error,
          except_pure_def, reduceCtorEq, Except.ok.injEq, Bool.false_eq_true] at h
      rcases h8 : ty.isAcceptedContainer with _ | _ <;>
        simp [h8, runEarlyM, EarlyM.fin, EarlyM.die, except_bind_ok, except_bind_error,
          except_pure_def] at h
      exact ⟨hdr, e, itv, g, cf, gname, a0, ty, rfl, h2, h3, h4, h5, h6, h7, h8, h⟩
    · rintro ⟨hdr, e, itv, g, cf, gname, a0, ty, hh1, hh2, hh3, hh4, hh5, hh6, hh7, hh8, hh9⟩
      unfold IterLoopCanonicalization.assess_loop
      simp [hh1, hh2, hh3, hh4, hh5, hh6, hh7, hh8, hh9, runEarlyM, EarlyM.fin, EarlyM.die,
        except_bind_ok, except_bind_error, except_pure_def,
        IterLoopCanonicalization._accepted_calls]

/-- Witness for C8: the canonicalization example loop over
`literal_unroll((0, 1.0))` is accepted under its partial typemap. -/
theorem C8_assess_loop_acceptance_witness :
    IterLoopCanonicalization.assess_loop (Loop.mk 10 [0] [10, 20] [30])
      cx5State.func_ir cx5State.typemap = .ok true :=
  ((C8_assess_loop_acceptance (Loop.mk 10 [0] [10, 20] [30]) cx5State.func_ir).2
      cx5State.typemap (by decide)).mpr
    ⟨iterHeader "it" "p" "x" "c" 20 30, .iternext (vstr "it"), vstr "it", vstr "lu",
     vstr "lug", "literal_unroll", vstr "t", .tupleTy [.int64, .float64],
     by decide, by decide, by decide, by decide, by decide, by decide, by decide,
     by decide, by decide⟩

/-- Helper for C6: a loop whose header lacks a single `iternext` is assessed
`False` by the canonicalizer without raising. -/
theorem assess_loop_false_of_iternexts (L : Loop) (fir : FuncIR) (tm : List (VName × Ty))
    (hdr : Block) (hh : alGet fir.blocks L.header = some hdr)
    (hn : (hdr.find_exprs "iternext").length ≠ 1) :
    IterLoopCanonicalization.assess_loop L fir tm = .ok false := by
  unfold IterLoopCanonicalization.assess_loop
  rcases h2 : hdr.find_exprs "iternext" with _ | ⟨e, _ | ⟨e2, rest2⟩⟩
  · simp [hh, h2, runEarlyM, EarlyM.fin, except_bind_error, except_bind_ok, except_pure_def]
  · exact absurd (by rw [h2]; rfl) hn
  · simp [hh, h2, runEarlyM, EarlyM.fin, except_bind_error, except_bind_ok, except_pure_def]

/-- Helper for C6: the unroll scan answers `abort` (the early `return
False`) on a loop whose header lacks a single `iternext`. -/
theorem scanLoop_abort_of_iternexts (L : Loop) (fir : FuncIR) (tm : List (VName × Ty))
    (hdr : Block) (hh : alGet fir.blocks L.header = some hdr)
    (hn : (hdr.find_exprs "iternext").length ≠ 1) :
    scanLoop fir tm L = .ok .abort := by
  unfold scanLoop
  rcases h2 : hdr.find_exprs "iternext" with _ | ⟨e, _ | ⟨e2, rest2⟩⟩
  · simp [hh, h2, runScanM, ScanM.fin, except_bind_error, except_bind_ok, except_pure_def]
  · exact absurd (by rw [h2]; rfl) hn
  · simp [hh, h2, runScanM, ScanM.fin, except_bind_error, except_bind_ok, except_pure_def]

/-- C6 (amended): a loop whose header holds zero or more than one `iternext`
is handled differently by the two passes.  The canonicalizer assesses it
`False` without raising and its per-loop driver moves on to the remaining
loops unchanged; the unroll scan instead answers `False` for the whole scan,
abandoning every remaining loop of the same pass invocation, however
eligible. -/
theorem C6_iternext_skip_scope (state : State) (k : Nat) (L : Loop)
    (rest : List (Nat × Loop)) (acc : List (Nat × UnrollInfo)) (hdr : Block)
    (hh : alGet state.func_ir.blocks L.header = some hdr)
    (hn : (hdr.find_exprs "iternext").length ≠ 1) :
    IterLoopCanonicalization.assess_loop L state.func_ir state.typemap = .ok false ∧
    (∀ cfg ctr m, IterLoopCanonicalization.run_pass_go cfg ((k, L) :: rest) state ctr m =
        IterLoopCanonicalization.run_pass_go cfg rest state ctr m) ∧
    scanLoops state.func_ir state.typemap ((k, L) :: rest) acc = .ok none := by
  refine ⟨assess_loop_false_of_iternexts L state.func_ir state.typemap hdr hh hn, ?_, ?_⟩
  · intro cfg ctr m
    rw [IterLoopCanonicalization.run_pass_go,
      assess_loop_false_of_iternexts L state.func_ir state.typemap hdr hh hn]
  · rw [scanLoops, scanLoop_abort_of_iternexts L state.func_ir state.typemap hdr hh hn]

/-- Witness for C6 (amended), at the abort input: its branch loop is
assessed `False` and stepped over by the canonicalizer, and aborts the
unroll scan. -/
theorem C6_iternext_skip_scope_witness :
    IterLoopCanonicalization.assess_loop cx6LoopA cx6State.func_ir cx6State.typemap
      = .ok false ∧
    IterLoopCanonicalization.run_pass_go cx6Blocks [(5, cx6LoopA), (10, cx6LoopB)]
        cx6State 300 false =
      IterLoopCanonicalization.run_pass_go cx6Blocks [(10, cx6LoopB)] cx6State 300 false ∧
    scanLoops cx6State.func_ir cx6State.typemap [(5, cx6LoopA), (10, cx6LoopB)] [] =
      .ok none :=
  let h := C6_iternext_skip_scope cx6State 5 cx6LoopA [(10, cx6LoopB)] []
    (Block.mk [.branch (vstr "q") 7 10]) (by decide) (by decide)
  ⟨h.1, h.2.1 cx6Blocks 300 false, h.2.2⟩

/-- Counterexample for C6 as stated: in the abort input the branch loop
(header 5, no `iternext`) precedes an unroll-eligible loop (header 10,
found by the scan in isolation), yet the whole unroll pass reports no
mutation and leaves the block map untouched — the eligible loop is not
unrolled in the same pass invocation. -/
theorem C6_counterexample :
    loopsOf cx6Blocks = [(5, cx6LoopA), (10, cx6LoopB)] ∧
    ((alGet cx6Blocks 5).map fun b => (b.find_exprs "iternext").length) = some 0 ∧
    scanLoop cx6State.func_ir cx6State.typemap cx6LoopB = .ok (.found 15 cx6UI) ∧
    scanLoops cx6State.func_ir cx6State.typemap (loopsOf cx6Blocks) [] = .ok none ∧
    MixedContainerUnroller.run_pass 5 cx6State 300 = .ok (some (false, cx6Reset)) ∧
    cx6Reset.func_ir.blocks = cx6Blocks :=
  ⟨by decide, by decide, by decide, by decide, by decide, by decide⟩

/-- C5 (amended): canonicalization is idempotent only in the presence of a
partial typemap.  With one, the first run transforms the example loop and a
second run reports `mutated == false`; in general the canonicalized loop is
re-assessed `False` under every non-empty partial typemap, because its
header iterator now chases to a `get_range` global rather than the consumed
`literal_unroll` marker.  (Without a typemap the marker test is skipped and
a second run re-transforms: see the counterexample.) -/
theorem C5_canonicalization_idempotent_with_typemap (x : VName × Ty) (xs : List (VName × Ty)) :
    IterLoopCanonicalization.run_pass cx5State 100 =
      .ok (true, cx5S1 cx5State.typemap, 106) ∧
    mutatedOf (IterLoopCanonicalization.run_pass (cx5S1 cx5State.typemap) 106) = some false ∧
    IterLoopCanonicalization.assess_loop (Loop.mk 10 [0] [10, 20] [30])
      { blocks := cx5After, defs := build_definitions cx5After,
        livemap := computeLiveMap cx5After } (x :: xs) = .ok false :=
  ⟨by decide, by decide, rfl⟩

/-- Counterexample for C5 as stated: without a partial typemap the
canonicalizer accepts its own output again — the first run transforms the
example loop and the second run also reports `mutated == true`. -/
theorem C5_counterexample :
    IterLoopCanonicalization.run_pass cx5NoTmState 100 = .ok (true, cx5S1 [], 106) ∧
    mutatedOf (IterLoopCanonicalization.run_pass (cx5S1 []) 106) = some true :=
  ⟨by decide, by decide⟩

/-- Helper for C1: the inner comparison of the nesting validation raises
only the nesting error. -/
theorem validateInner_ok_or_nest (tl : Nat) (ti : UnrollInfo)
    (all : List (Nat × UnrollInfo)) :
    validateInner tl ti all = .ok () ∨ validateInner tl ti all = .error nestingErr := by
  induction all with
  | nil => exact Or.inl rfl
  | cons hd rest ih =>
      obtain ⟨rl, ri⟩ := hd
      simp only [validateInner]
      by_cases h1 : tl = rl
      · rw [if_pos h1]; exact ih
      · rw [if_neg h1]
        by_cases h2 : ti.loop.header ∈ ri.loop.body
        · rw [if_pos h2]; exact Or.inr rfl
        · rw [if_neg h2]; exact ih

/-- Helper for C1: the inner comparison raises the nesting error whenever a
differently-keyed record has the probed header in its loop body. -/
theorem validateInner_error_of_nest (tl : Nat) (ti : UnrollInfo)
    (all : List (Nat × UnrollInfo)) (rl : Nat) (ri : UnrollInfo)
    (hmem : (rl, ri) ∈ all) (hne : tl ≠ rl) (hnest : ti.loop.header ∈ ri.loop.body) :
    validateInner tl ti all = .error nestingErr := by
  induction all with
  | nil => cases hmem
  | cons hd rest ih =>
      obtain ⟨hl, hi⟩ := hd
      simp only [validateInner]
      by_cases h1 : tl = hl
      · rw [if_pos h1]
        rcases List.mem_cons.mp hmem with heq | hmemt
        · injection heq with e1 e2
          exact absurd (h1.trans e1.symm) hne
        · exact ih hmemt
      · rw [if_neg h1]
        by_cases h2 : ti.loop.header ∈ hi.loop.body
        · rw [if_pos h2]
        · rw [if_neg h2]
          rcases List.mem_cons.mp hmem with heq | hmemt
          · injection heq with e1 e2
            subst e2
            exact absurd hnest h2
          · exact ih hmemt

/-- Helper for C1: the nesting validation raises the nesting error whenever
two distinct eligibility records nest. -/
theorem validate_nesting_error_of_nest (l all : List (Nat × UnrollInfo))
    (tl rl : Nat) (ti ri : UnrollInfo)
    (hmem1 : (tl, ti) ∈ l) (hmem2 : (rl, ri) ∈ all)
    (hne : tl ≠ rl) (hnest : ti.loop.header ∈ ri.loop.body) :
    validate_nesting l all = .error nestingErr := by
  induction l with
  | nil => cases hmem1
  | cons hd rest ih =>
      obtain ⟨hl, hi⟩ := hd
      simp only [validate_nesting]
      rcases List.mem_cons.mp hmem1 with heq | hmemt
      · injection heq with e1 e2
        subst e1; subst e2
        rw [validateInner_error_of_nest tl ti all rl ri hmem2 hne hnest]
      · rcases validateInner_ok_or_nest hl hi all with hok | herr
        · rw [hok]; exact ih hmemt
        · rw [herr]

/-- C1 (amended): when the scan of the CFG-simplified input finds two
distinct eligible loops with one header inside the other body, the unroll
driver raises the unsupported-nesting error whose message mentions
"Nesting"; but the block map carried by the raised state is the CFG
simplification of the input block map (computed on entry to `run_pass`,
before the scan), not the input block map itself. -/
theorem C1_nesting_raises_after_simplify (fuel : Nat) (state : State) (ctr : Nat)
    (infos : List (Nat × UnrollInfo)) (tl rl : Nat) (ti ri : UnrollInfo)
    (hscan : scanLoops (simplifiedState state).func_ir (simplifiedState state).typemap
      (loopsOf (simplifiedState state).func_ir.blocks) [] = .ok (some infos))
    (hmem1 : (tl, ti) ∈ infos) (hmem2 : (rl, ri) ∈ infos)
    (hne : tl ≠ rl) (hnest : ti.loop.header ∈ ri.loop.body) :
    MixedContainerUnroller.run_pass (fuel + 1) state ctr =
      .error (nestingErr, simplifiedState state) ∧
    nestingErr.kind = .unsupported ∧
    charListHasSub "Nesting".toList nestingErr.msg.toList = true := by
  refine ⟨?_, rfl, by decide⟩
  rcases infos with _ | ⟨i0, irest⟩
  · cases hmem1
  have happ : MixedContainerUnroller.apply_transform (simplifiedState state) ctr =
      .error (nestingErr, simplifiedState state) := by
    unfold MixedContainerUnroller.apply_transform
    simp only [hscan, List.isEmpty_cons, Bool.false_eq_true, if_false,
      validate_nesting_error_of_nest (i0 :: irest) (i0 :: irest) tl rl ti ri hmem1 hmem2
        hne hnest]
  have hloop : MixedContainerUnroller.run_pass_loop (fuel + 1) (simplifiedState state)
      ctr false = .error (nestingErr, simplifiedState state) := by
    rw [MixedContainerUnroller.run_pass_loop, happ]
  have hfin : MixedContainerUnroller.run_pass (fuel + 1) state ctr =
      (match MixedContainerUnroller.run_pass_loop (fuel + 1) (simplifiedState state)
          ctr false with
       | .error e => .error e
       | .ok none => .ok none
       | .ok (some (muta, s1)) =>
           .ok (some (muta,
             { s1 with typemap := [], return_type := none, calltypes := none }))) := rfl
  rw [hfin, hloop]

/-- Witness for C1 (amended) at the nested-unroll input. -/
theorem C1_nesting_raises_after_simplify_witness :
    MixedContainerUnroller.run_pass 9 cx1State 500 =
      .error (nestingErr, simplifiedState cx1State) ∧
    nestingErr.kind = .unsupported ∧
    charListHasSub "Nesting".toList nestingErr.msg.toList = true :=
  C1_nesting_raises_after_simplify 8 cx1State 500
    [(10, cx1InfoOuter), (20, cx1InfoInner)] 20 10
    cx1InfoInner cx1InfoOuter (by decide) (by decide) (by decide) (by decide) (by decide)

/-- Counterexample for C1 as stated: on the nested-unroll input the driver
does raise the "Nesting" error, but the block map at the raise differs from
the block map at invocation — the CFG simplification performed on entry has
already merged away a block. -/
theorem C1_counterexample :
    MixedContainerUnroller.run_pass 9 cx1State 500 = .error (nestingErr, cx1SimplState) ∧
    charListHasSub "Nesting".toList nestingErr.msg.toList = true ∧
    cx1SimplState.func_ir.blocks ≠ cx1State.func_ir.blocks :=
  ⟨by decide, by decide, by decide⟩

/-- C4 (amended): the canonicalizer's induction rewrite acts on whole
right-hand sides only.  An assignment whose complete right-hand side is a
bare read of an induction variable becomes an indexing expression on the
container; every other statement — in particular one reading an induction
variable nested inside a larger expression, such as a call argument — is
left syntactically unchanged, so such reads of the old induction variable
survive the transform. -/
theorem C4_whole_rhs_rewrite_only (ind : List VName) (iterarg : VName) :
    (∀ v tgt, v ∈ ind →
      IterLoopCanonicalization.rewriteInductionStmt ind iterarg (.assign (.var v) tgt) =
        .assign (.expr (.getitem iterarg v)) tgt) ∧
    (∀ s : Stmt, (∀ v tgt, s ≠ .assign (.var v) tgt) →
      IterLoopCanonicalization.rewriteInductionStmt ind iterarg s = s) := by
  constructor
  · intro v tgt hv
    simp [IterLoopCanonicalization.rewriteInductionStmt, hv]
  · intro s hs
    cases s with
    | assign value tgt =>
        cases value with
        | expr e => rfl
        | global n g => rfl
        | const c => rfl
        | var v => exact absurd rfl (hs v tgt)
    | jump l => rfl
    | branch c t f => rfl
    | ret v => rfl
    | raiseStmt => rfl

/-- Witness for C4 (amended): a bare copy of the induction variable is
rewritten to a getitem; a call reading it is left unchanged. -/
theorem C4_whole_rhs_rewrite_only_witness :
    IterLoopCanonicalization.rewriteInductionStmt [vstr "x"] (vstr "a")
      (.assign (.var (vstr "x")) (vstr "y")) =
      .assign (.expr (.getitem (vstr "a") (vstr "x"))) (vstr "y") ∧
    IterLoopCanonicalization.rewriteInductionStmt [vstr "x"] (vstr "a")
      (.assign (.expr (.call (vstr "f") [vstr "x"])) (vstr "z")) =
      .assign (.expr (.call (vstr "f") [vstr "x"])) (vstr "z") :=
  ⟨(C4_whole_rhs_rewrite_only [vstr "x"] (vstr "a")).1 (vstr "x") (vstr "y") (by decide),
   (C4_whole_rhs_rewrite_only [vstr "x"] (vstr "a")).2
     (.assign (.expr (.call (vstr "f") [vstr "x"])) (vstr "z"))
     (by intro v tgt h; simp at h)⟩

/-- Counterexample for C4 as stated: canonicalizing the induction-reference
input rewrites the bare copy `y = x` of the induction variable `x` into
`y = a[x]`, but the call `z = f(x)` in the same rewritten loop body still
reads the old induction variable. -/
theorem C4_counterexample :
    mutatedOf (IterLoopCanonicalization.run_pass cx4State 100) = some true ∧
    blockOf (IterLoopCanonicalization.run_pass cx4State 100) 20 =
      some (Block.mk
        [.assign (.expr (.getitem (vstr "a") (vstr "x"))) (vstr "y"),
         .assign (.expr (.call (vstr "f") [vstr "x"])) (vstr "z"),
         .jump 10]) :=
  ⟨by decide, by decide⟩

/-- Helper for C2: lookup off the key set misses. -/
theorem alGet_eq_none_of_not_mem_keys {α β : Type} [DecidableEq α]
    (l : List (α × β)) (k : α) (h : k ∉ alKeys l) : alGet l k = none := by
  induction l with
  | nil => rfl
  | cons p t ih =>
      obtain ⟨a, b⟩ := p
      simp only [alKeys, List.map_cons, List.mem_cons] at h
      push_neg at h
      rw [alGet, if_neg (fun hq => h.1 hq.symm)]
      exact ih (by simpa [alKeys] using h.2)

/-- Helper for C2: a rename dict leaves names off its key set unchanged. -/
theorem substV_eq_of_not_mem_keys (σ : List (VName × VName)) (n : VName)
    (h : n ∉ alKeys σ) : substV σ n = n := by
  unfold substV
  rw [alGet_eq_none_of_not_mem_keys σ n h]
  rfl

/-- Helper for C2: the rename dict is keyed by the variable table. -/
theorem mkRenameDict_keys (vt : List VName) (c : Nat) :
    alKeys (mkRenameDict vt c).1 = vt := by
  induction vt generalizing c with
  | nil => rfl
  | cons n rest ih =>
      simp only [mkRenameDict, mk_unique_var, alKeys, List.map_cons]
      exact congrArg (n :: ·) (ih (c + 1))

/-- Helper for C2: one fresh name is drawn per variable-table entry. -/
theorem mkRenameDict_length (vt : List VName) (c : Nat) :
    (mkRenameDict vt c).1.length = vt.length := by
  induction vt generalizing c with
  | nil => rfl
  | cons n rest ih =>
      simp only [mkRenameDict, mk_unique_var, List.length_cons]
      exact congrArg (· + 1) (ih (c + 1))

/-- Helper for C2: the counter advances by the variable-table length. -/
theorem mkRenameDict_ctr (vt : List VName) (c : Nat) :
    (mkRenameDict vt c).2 = c + vt.length := by
  induction vt generalizing c with
  | nil => rfl
  | cons n rest ih =>
      simp only [mkRenameDict, mk_unique_var, List.length_cons]
      rw [ih (c + 1)]
      omega

/-- Helper for C2: every drawn name is a counter-tagged name whose tag lies
in the bracket the dict was drawn over. -/
theorem mkRenameDict_values (vt : List VName) (c : Nat) :
    ∀ w ∈ (mkRenameDict vt c).1.map Prod.snd,
      ∃ b k, w = VName.uniq b k ∧ c ≤ k ∧ k < (mkRenameDict vt c).2 := by
  induction vt generalizing c with
  | nil => intro w hw; cases hw
  | cons n rest ih =>
      intro w hw
      simp only [mkRenameDict, mk_unique_var, List.map_cons, List.mem_cons] at hw
      rcases hw with heq | hmem
      · refine ⟨n, c, heq, Nat.le_refl c, ?_⟩
        rw [show (mkRenameDict (n :: rest) c).2 = (mkRenameDict rest (c + 1)).2 from rfl,
          mkRenameDict_ctr]
        omega
      · obtain ⟨b, k, heq, hk1, hk2⟩ := ih (c + 1) w hmem
        refine ⟨b, k, heq, by omega, ?_⟩
        rw [show (mkRenameDict (n :: rest) c).2 = (mkRenameDict rest (c + 1)).2 from rfl]
        exact hk2

/-- Helper for C2: the drawn names are pairwise distinct. -/
theorem mkRenameDict_values_nodup (vt : List VName) (c : Nat) :
    ((mkRenameDict vt c).1.map Prod.snd).Nodup := by
  induction vt generalizing c with
  | nil => exact List.nodup_nil
  | cons n rest ih =>
      simp only [mkRenameDict, mk_unique_var, List.map_cons]
      refine List.nodup_cons.mpr ⟨?_, ih (c + 1)⟩
      intro hmem
      obtain ⟨b, k, heq, hk1, _⟩ := mkRenameDict_values rest (c + 1) _ hmem
      injection heq with hb hk
      omega

/-- Helper for C2: the typed-getitem fix never decreases the counter. -/
theorem fixTypedGetitemStmt_ctr_le (ty : Ty) (s : Stmt) (ctr : Nat) (dr : List VName) :
    ctr ≤ (fixTypedGetitemStmt ty s ctr dr).2.1 := by
  unfold fixTypedGetitemStmt
  split
  · split
    · exact Nat.le_succ ctr
    · exact Nat.le_refl ctr
  · exact Nat.le_refl ctr

/-- Helper for C2: the typed-getitem fix never decreases the counter. -/
theorem fixTypedGetitemBody_ctr_le (ty : Ty) :
    ∀ (ss : List Stmt) (ctr : Nat) (dr : List VName),
      ctr ≤ (fixTypedGetitemBody ty ss ctr dr).2.1
  | [], ctr, dr => Nat.le_refl ctr
  | s :: rest, ctr, dr => by
      have h1 := fixTypedGetitemStmt_ctr_le ty s ctr dr
      rcases heq : fixTypedGetitemStmt ty s ctr dr with ⟨ss1, c1, dr1⟩
      rw [heq] at h1
      have h2 := fixTypedGetitemBody_ctr_le ty rest c1 dr1
      rcases heq2 : fixTypedGetitemBody ty rest c1 dr1 with ⟨rest1, c2, dr2⟩
      rw [heq2] at h2
      simp only [fixTypedGetitemBody, heq, heq2]
      exact Nat.le_trans h1 h2

/-- Helper for C2: the typed-getitem fix never decreases the counter. -/
theorem fixTypedGetitemBlocks_ctr_le (ty : Ty) :
    ∀ (bs : Blocks) (ctr : Nat) (dr : List VName),
      ctr ≤ (fixTypedGetitemBlocks ty bs ctr dr).2.1
  | [], ctr, dr => Nat.le_refl ctr
  | (l, b) :: rest, ctr, dr => by
      have h1 := fixTypedGetitemBody_ctr_le ty b.body ctr dr
      rcases heq : fixTypedGetitemBody ty b.body ctr dr with ⟨ss1, c1, dr1⟩
      rw [heq] at h1
      have h2 := fixTypedGetitemBlocks_ctr_le ty rest c1 dr1
      rcases heq2 : fixTypedGetitemBlocks ty rest c1 dr1 with ⟨rest1, c2, dr2⟩
      rw [heq2] at h2
      simp only [fixTypedGetitemBlocks, heq, heq2]
      exact Nat.le_trans h1 h2

/-- Helper for C2: renaming maps the named variables of a statement
pointwise. -/
theorem Stmt.allVars_subst (σ : List (VName × VName)) (s : Stmt) :
    (Stmt.subst σ s).allVars = s.allVars.map (substV σ) := by
  cases s with
  | assign v t =>
      cases v with
      | expr e =>
          cases e <;>
            simp [Stmt.subst, RVal.subst, Expr.subst, Stmt.allVars, Stmt.usedVars,
              Stmt.defVars, RVal.usedVars, Expr.usedVars]
      | global n g =>
          simp [Stmt.subst, RVal.subst, Stmt.allVars, Stmt.usedVars, Stmt.defVars,
            RVal.usedVars]
      | const c =>
          simp [Stmt.subst, RVal.subst, Stmt.allVars, Stmt.usedVars, Stmt.defVars,
            RVal.usedVars]
      | var v =>
          simp [Stmt.subst, RVal.subst, Stmt.allVars, Stmt.usedVars, Stmt.defVars,
            RVal.usedVars]
  | jump l => rfl
  | branch c t f =>
      simp [Stmt.subst, Stmt.allVars, Stmt.usedVars, Stmt.defVars]
  | ret v =>
      simp [Stmt.subst, Stmt.allVars, Stmt.usedVars, Stmt.defVars]
  | raiseStmt => rfl

/-- Helper for C2: the fields of one `inject_branch` step, in terms of the
recomputed fix result and rename dict. -/
theorem inject_branch_spec (loopIRBlocks : Blocks) (ignore : List Nat) (sb : Blocks)
    (dr : List VName) (ctr lbl : Nat) (ty : Ty)
    (B1 : Blocks) (c1 : Nat) (dr1 : List VName) (vt : List VName)
    (σ : List (VName × VName)) (c2 : Nat)
    (hfix : fixTypedGetitemBlocks ty
        (add_offset_to_labels_w_ignore loopIRBlocks (maxKey sb + 1) ignore) ctr dr =
      (B1, c1, dr1))
    (hvt : vt = (get_name_var_table B1).filter (· ∉ dr1))
    (hσ : mkRenameDict vt c1 = (σ, c2)) :
    (inject_branch loopIRBlocks ignore sb dr ctr lbl ty).copy = replace_var_names B1 σ ∧
    (inject_branch loopIRBlocks ignore sb dr ctr lbl ty).dontReplace = dr1 ∧
    (inject_branch loopIRBlocks ignore sb dr ctr lbl ty).ctr = c2 := by
  subst hvt
  unfold inject_branch
  simp only [hfix, hσ]
  exact ⟨trivial, trivial, trivial⟩

/-- Helper for C2: one `inject_branch` step never decreases the counter. -/
theorem inject_branch_ctr_le (loopIRBlocks : Blocks) (ignore : List Nat) (sb : Blocks)
    (dr : List VName) (ctr lbl : Nat) (ty : Ty) :
    ctr ≤ (inject_branch loopIRBlocks ignore sb dr ctr lbl ty).ctr := by
  have h1 := fixTypedGetitemBlocks_ctr_le ty
    (add_offset_to_labels_w_ignore loopIRBlocks (maxKey sb + 1) ignore) ctr dr
  rcases heq : fixTypedGetitemBlocks ty
      (add_offset_to_labels_w_ignore loopIRBlocks (maxKey sb + 1) ignore) ctr dr
    with ⟨B1, c1, dr1⟩
  rw [heq] at h1
  have h1c : ctr ≤ c1 := h1
  rcases heq2 : mkRenameDict ((get_name_var_table B1).filter (· ∉ dr1)) c1 with ⟨σ, c2⟩
  have hs := (inject_branch_spec loopIRBlocks ignore sb dr ctr lbl ty B1 c1 dr1
    ((get_name_var_table B1).filter (· ∉ dr1)) σ c2 heq rfl heq2).2.2
  rw [hs]
  have hc := mkRenameDict_ctr ((get_name_var_table B1).filter (· ∉ dr1)) c1
  rw [heq2] at hc
  have hcc : c2 = c1 + ((get_name_var_table B1).filter (· ∉ dr1)).length := hc
  omega

/-- Helper for C2: the names drawn for one branch carry counter tags in the
bracket between the branch entry counter and the branch exit counter. -/
theorem inject_branch_ctr_values (loopIRBlocks : Blocks) (ignore : List Nat) (sb : Blocks)
    (dr : List VName) (ctr lbl : Nat) (ty : Ty) :
    ∀ w ∈ (branchDict loopIRBlocks ignore sb dr ctr ty).1.map Prod.snd,
      ∃ b k, w = VName.uniq b k ∧ ctr ≤ k ∧
        k < (inject_branch loopIRBlocks ignore sb dr ctr lbl ty).ctr := by
  intro w hw
  have h1 := fixTypedGetitemBlocks_ctr_le ty
    (add_offset_to_labels_w_ignore loopIRBlocks (maxKey sb + 1) ignore) ctr dr
  rcases heq : fixTypedGetitemBlocks ty
      (add_offset_to_labels_w_ignore loopIRBlocks (maxKey sb + 1) ignore) ctr dr
    with ⟨B1, c1, dr1⟩
  rw [heq] at h1
  have h1c : ctr ≤ c1 := h1
  rcases heq2 : mkRenameDict ((get_name_var_table B1).filter (· ∉ dr1)) c1 with ⟨σ, c2⟩
  have hs := (inject_branch_spec loopIRBlocks ignore sb dr ctr lbl ty B1 c1 dr1
    ((get_name_var_table B1).filter (· ∉ dr1)) σ c2 heq rfl heq2).2.2
  rw [hs]
  have hw2 : w ∈ (mkRenameDict ((get_name_var_table B1).filter (· ∉ dr1)) c1).1.map
      Prod.snd := by
    have hbd : (branchDict loopIRBlocks ignore sb dr ctr ty).1 =
        (mkRenameDict ((get_name_var_table B1).filter (· ∉ dr1)) c1).1 := by
      unfold branchDict
      rw [heq]
    rw [hbd] at hw
    exact hw
  obtain ⟨b, k, heqw, hk1, hk2⟩ := mkRenameDict_values _ _ w hw2
  rw [heq2] at hk2
  have hk2c : k < c2 := hk2
  exact ⟨b, k, heqw, Nat.le_trans h1c hk1, hk2c⟩

/-- Helper for C2: every name drawn anywhere along the injection fold
carries a counter tag at or above the fold entry counter. -/
theorem injectDicts_values_lb (loopIRBlocks : Blocks) (ignore : List Nat) :
    ∀ (pairs : List (Nat × Ty)) (sb : Blocks) (dr : List VName) (ctr : Nat),
      ∀ d ∈ injectDicts loopIRBlocks ignore sb dr ctr pairs,
        ∀ w ∈ d.map Prod.snd, ∃ b k, w = VName.uniq b k ∧ ctr ≤ k := by
  intro pairs
  induction pairs with
  | nil => intro sb dr ctr d hd; cases hd
  | cons p rest ih =>
      obtain ⟨lbl, ty⟩ := p
      intro sb dr ctr d hd
      simp only [injectDicts] at hd
      rcases List.mem_cons.mp hd with heq | hmem
      · subst heq
        intro w hw
        obtain ⟨b, k, heqw, hk1, _⟩ :=
          inject_branch_ctr_values loopIRBlocks ignore sb dr ctr lbl ty w hw
        exact ⟨b, k, heqw, hk1⟩
      · intro w hw
        obtain ⟨b, k, heqw, hk1⟩ := ih _ _ _ d hmem w hw
        exact ⟨b, k, heqw,
          Nat.le_trans (inject_branch_ctr_le loopIRBlocks ignore sb dr ctr lbl ty) hk1⟩

/-- Helper for C2: the dicts drawn along the injection fold use pairwise
disjoint fresh-name sets. -/
theorem injectDicts_pairwise_disjoint (loopIRBlocks : Blocks) (ignore : List Nat) :
    ∀ (pairs : List (Nat × Ty)) (sb : Blocks) (dr : List VName) (ctr : Nat),
      List.Pairwise (fun d1 d2 => ∀ w ∈ d1.map Prod.snd, w ∉ d2.map Prod.snd)
        (injectDicts loopIRBlocks ignore sb dr ctr pairs) := by
  intro pairs
  induction pairs with
  | nil => intro sb dr ctr; exact List.Pairwise.nil
  | cons p rest ih =>
      obtain ⟨lbl, ty⟩ := p
      intro sb dr ctr
      simp only [injectDicts]
      refine List.Pairwise.cons ?_ (ih _ _ _)
      intro d hd w hw hw2
      obtain ⟨b, k, heqw, _, hk2⟩ :=
        inject_branch_ctr_values loopIRBlocks ignore sb dr ctr lbl ty w hw
      obtain ⟨b2, k2, heqw2, hk3⟩ := injectDicts_values_lb loopIRBlocks ignore rest _ _ _
        d hd w hw2
      rw [heqw] at heqw2
      injection heqw2 with hb hk
      omega

/-- C2: each injected loop-body copy is the relabelled, type-fixed body
renamed by a dict whose keys are exactly the body variables outside the
do-not-rename set (one fresh, pairwise-distinct name per such variable, so
the fresh set has size of the body variable set minus the do-not-rename
set); renaming acts pointwise on every statement and fixes every
do-not-rename variable, so those keep their original names in all copies;
and the fresh-name sets drawn for the successive copies are pairwise
disjoint. -/
theorem C2_injected_copies_fresh_disjoint
    (loopIRBlocks : Blocks) (ignore : List Nat) (sb : Blocks) (dr : List VName)
    (ctr lbl : Nat) (ty : Ty) (pairs : List (Nat × Ty))
    (B1 : Blocks) (c1 : Nat) (dr1 : List VName) (vt : List VName)
    (σ : List (VName × VName)) (c2 : Nat)
    (hfix : fixTypedGetitemBlocks ty
        (add_offset_to_labels_w_ignore loopIRBlocks (maxKey sb + 1) ignore) ctr dr =
      (B1, c1, dr1))
    (hvt : vt = (get_name_var_table B1).filter (· ∉ dr1))
    (hσ : mkRenameDict vt c1 = (σ, c2)) :
    ((inject_branch loopIRBlocks ignore sb dr ctr lbl ty).copy =
        replace_var_names B1 σ ∧
      (inject_branch loopIRBlocks ignore sb dr ctr lbl ty).dontReplace = dr1 ∧
      (inject_branch loopIRBlocks ignore sb dr ctr lbl ty).ctr = c2) ∧
    (alKeys σ = vt ∧ σ.length = vt.length ∧ (σ.map Prod.snd).Nodup) ∧
    ((∀ n, n ∈ dr1 → substV σ n = n) ∧
      (∀ s : Stmt, (Stmt.subst σ s).allVars = s.allVars.map (substV σ))) ∧
    List.Pairwise (fun d1 d2 => ∀ w ∈ d1.map Prod.snd, w ∉ d2.map Prod.snd)
      (injectDicts loopIRBlocks ignore sb dr ctr pairs) := by
  have hkeys : alKeys σ = vt := by
    have h := mkRenameDict_keys vt c1
    rw [hσ] at h
    exact h
  refine ⟨inject_branch_spec loopIRBlocks ignore sb dr ctr lbl ty B1 c1 dr1 vt σ c2
      hfix hvt hσ,
    ⟨hkeys, ?_, ?_⟩, ⟨?_, fun s => Stmt.allVars_subst σ s⟩,
    injectDicts_pairwise_disjoint loopIRBlocks ignore pairs sb dr ctr⟩
  · have h := mkRenameDict_length vt c1
    rw [hσ] at h
    exact h
  · have h := mkRenameDict_values_nodup vt c1
    rw [hσ] at h
    exact h
  · intro n hn
    refine substV_eq_of_not_mem_keys σ n ?_
    intro hmem
    rw [hkeys, hvt] at hmem
    have hf := List.of_mem_filter hmem
    simp at hf
    exact hf hn

/-- Witness for C2 at a two-branch injection: the first copy is the renamed
fixed body, the dict is keyed by the two body-local names, the container
name is left unchanged, and the two branch dicts are disjoint. -/
theorem C2_injected_copies_fresh_disjoint_witness :
    (inject_branch cw2Loop [] cw2SB cw2DR 50 1 (Ty.elem .float64)).copy =
      replace_var_names cw2B1 cw2Dict ∧
    alKeys cw2Dict = [vstr "x", vstr "y"] ∧
    substV cw2Dict (vstr "t") = vstr "t" ∧
    List.Pairwise (fun d1 d2 => ∀ w ∈ d1.map Prod.snd, w ∉ d2.map Prod.snd)
      (injectDicts cw2Loop [] cw2SB cw2DR 50 cw2Pairs) :=
  let h := C2_injected_copies_fresh_disjoint cw2Loop [] cw2SB cw2DR 50 1
    (Ty.elem .float64) cw2Pairs cw2B1 50 cw2DR [vstr "x", vstr "y"] cw2Dict 52
    (by decide) (by decide) (by decide)
  ⟨h.1.1, h.2.1.1, h.2.2.1.1 (vstr "t") (by decide), h.2.2.2⟩
